import Mathlib

/-! # Server descriptions and the SASL conversation of the MongoDB Go driver

A shallow embedding of

* `core/description/server.go`: `NewServer`, `Server.SetAverageRTT`, `UnsetRTT`;
* `core/auth/sasl.go`: `ConductSaslConversation`.

Go values are modelled by plain data: `string` by `String`, `[]string` by `List String`,
`uint32` by `Nat`, `int`/`int32` by `Int`, `time.Duration` (a count of nanoseconds) by `Int`,
`error` by an `Option` that is `none` for `nil`, and a pointer that may be `nil` by an `Option`.
Code that the two files call but that lives in other packages (`Canonicalize`,
`NewTagSetFromMap`, the clock, the SASL client, the command round trip, `bson.Unmarshal`)
is taken as a parameter.
-/

/-! ## Package `time` -/

namespace time

/-- A `time.Duration`: a signed count of nanoseconds. -/
abbrev Duration := Int

/-- A `time.Time`, kept as an instant on some fixed scale; the zero value is `0`. -/
abbrev Time := Int

/-- The constant `time.Millisecond`, one million nanoseconds. -/
def Millisecond : Duration := 1000000

end time

/-! ## Packages `address`, `tag`, `objectid`, `result` -/

namespace address

/-- An `address.Address` is a Go string. -/
abbrev Address := String

end address

namespace tag

/-- A `tag.Tag`: a name/value pair. -/
structure Tag where
  Name : String
  Value : String
deriving DecidableEq, Repr

/-- A `tag.Set`: an ordered sequence of tags. -/
abbrev Set := List Tag

end tag

namespace objectid

/-- An `objectid.ObjectID`: a fixed array of bytes, kept as the list of its bytes. -/
abbrev ObjectID := List Nat

end objectid

namespace result

set_option linter.dupNamespace false in
/-- The fields of `result.IsMaster` (a heartbeat reply) that `NewServer` reads.
The type of each field is the one `NewServer` uses it at. `Tags` is a Go map, kept as the
list of its entries; the order of that list is not an order of the map. -/
structure IsMaster where
  Arbiters : List String
  ArbiterOnly : Bool
  Compression : List String
  ElectionID : objectid.ObjectID
  Hidden : Bool
  Hosts : List String
  IsMaster : Bool
  IsReplicaSet : Bool
  LastWriteTimestamp : time.Time
  MaxBSONObjectSize : Nat
  MaxMessageSizeBytes : Nat
  MaxWriteBatchSize : Nat
  Me : String
  MaxWireVersion : Int
  MinWireVersion : Int
  Msg : String
  OK : Int
  Passives : List String
  Secondary : Bool
  SetName : String
  SetVersion : Nat
  Tags : List (String × String)
deriving DecidableEq, Repr

end result

/-! ## Package `description` -/

namespace description

open address

/-- Modelled from the spec: the declaration of `ServerKind` and of its constants is not part
of the given sources. The spec's data model lists the kinds
`Standalone | RSGhost | RSPrimary | RSSecondary | RSMember | RSArbiter | Mongos | Unknown`
as distinct members; `Unknown` stands for the zero value, which is what a `Server` literal
that does not mention `Kind` holds. -/
inductive ServerKind where
  | Unknown
  | Standalone
  | RSMember
  | RSPrimary
  | RSSecondary
  | RSArbiter
  | RSGhost
  | Mongos
deriving DecidableEq, Repr

/-- The zero value of `ServerKind`. -/
def ServerKind.zeroValue : ServerKind := ServerKind.Unknown

/-- Modelled from the spec: `TopologyKind` is declared outside the given sources. Only its
zero value is used (the `Kind` of the literal `SelectedServer{Server: desc}`), so it is kept
as a number whose zero value is `0`. -/
abbrev TopologyKind := Nat

/-- The struct `VersionRange` with the two fields `NewServer` fills in. -/
structure VersionRange where
  Min : Int
  Max : Int
deriving DecidableEq, Repr

/-- The struct `Server`, field by field. -/
structure Server where
  Addr : Address
  AverageRTT : time.Duration
  AverageRTTSet : Bool
  Compression : List String
  CanonicalAddr : Address
  ElectionID : objectid.ObjectID
  HeartbeatInterval : time.Duration
  LastError : Option String
  LastUpdateTime : time.Time
  LastWriteTime : time.Time
  MaxBatchCount : Nat
  MaxDocumentSize : Nat
  MaxMessageSize : Nat
  Members : List Address
  ReadOnly : Bool
  SetName : String
  SetVersion : Nat
  Tags : tag.Set
  Kind : ServerKind
  WireVersion : Option VersionRange
deriving DecidableEq, Repr

/-- The struct `SelectedServer`: a server description with the kind of its topology. -/
structure SelectedServer where
  Server : Server
  Kind : TopologyKind
deriving DecidableEq, Repr

/-- The constant `UnsetRTT = -1 * time.Millisecond`. -/
def UnsetRTT : time.Duration := -1 * time.Millisecond

/-- The functions of other packages that `NewServer` calls, as they behave during one call:
`address.Address.Canonicalize` and `tag.NewTagSetFromMap`. The latter ranges over a Go
map (`isMaster.Tags`, kept here as the list of its entries), whose iteration order is not
fixed: the order in which it lists the tags belongs to the call, so two calls of
`NewServer` are served by two values of this structure that may differ in
`NewTagSetFromMap`. -/
structure Externals where
  Canonicalize : Address → Address
  NewTagSetFromMap : List (String × String) → tag.Set

/-- One of the three loops of `NewServer`:
`for _, h := range hs { members = append(members, Address(h).Canonicalize()) }`. -/
def appendCanonical (ext : Externals) (members : List Address) (hs : List String) :
    List Address :=
  hs.foldl (fun acc h => acc ++ [ext.Canonicalize h]) members

/-- The function `NewServer`. The reading of the clock, `time.Now().UTC()`, is the
argument `now`; the helpers of other packages, as they behave in this call, are `ext`. -/
def NewServer (ext : Externals) (now : time.Time) (addr : Address)
    (isMaster : result.IsMaster) : Server :=
  let i : Server :=
    { Addr := addr
      AverageRTT := 0
      AverageRTTSet := false
      Compression := isMaster.Compression
      CanonicalAddr := ext.Canonicalize isMaster.Me
      ElectionID := isMaster.ElectionID
      HeartbeatInterval := 0
      LastError := none
      LastUpdateTime := now
      LastWriteTime := isMaster.LastWriteTimestamp
      MaxBatchCount := isMaster.MaxWriteBatchSize
      MaxDocumentSize := isMaster.MaxBSONObjectSize
      MaxMessageSize := isMaster.MaxMessageSizeBytes
      Members := []
      ReadOnly := false
      SetName := isMaster.SetName
      SetVersion := isMaster.SetVersion
      Tags := ext.NewTagSetFromMap isMaster.Tags
      Kind := ServerKind.zeroValue
      WireVersion := none }
  let i : Server := if i.CanonicalAddr = "" then { i with CanonicalAddr := addr } else i
  if isMaster.OK ≠ 1 then
    { i with LastError := some "not ok" }
  else
    let i : Server := { i with Members := appendCanonical ext i.Members isMaster.Hosts }
    let i : Server := { i with Members := appendCanonical ext i.Members isMaster.Passives }
    let i : Server := { i with Members := appendCanonical ext i.Members isMaster.Arbiters }
    let i : Server := { i with Kind := ServerKind.Standalone }
    let i : Server :=
      if isMaster.IsReplicaSet then { i with Kind := ServerKind.RSGhost }
      else if isMaster.SetName ≠ "" then
        if isMaster.IsMaster then { i with Kind := ServerKind.RSPrimary }
        else if isMaster.Hidden then { i with Kind := ServerKind.RSMember }
        else if isMaster.Secondary then { i with Kind := ServerKind.RSSecondary }
        else if isMaster.ArbiterOnly then { i with Kind := ServerKind.RSArbiter }
        else { i with Kind := ServerKind.RSMember }
      else if isMaster.Msg = "isdbgrid" then { i with Kind := ServerKind.Mongos }
      else i
    { i with
      WireVersion := some { Min := isMaster.MinWireVersion, Max := isMaster.MaxWireVersion } }

/-- The method `Server.SetAverageRTT`. The receiver is passed by value, so the assignments
act on a copy, which is returned. -/
def Server.SetAverageRTT (s : Server) (rtt : time.Duration) : Server :=
  let s : Server := { s with AverageRTT := rtt }
  if rtt = UnsetRTT then { s with AverageRTTSet := false }
  else { s with AverageRTTSet := true }

end description

/-! ## Package `auth` -/

namespace auth

open description

/-- A Go byte slice. -/
abbrev Bytes := List Nat

/-- An error value produced outside `ConductSaslConversation`, kept as its message. -/
abbrev Err := String

/-- The conversion `int32(x)` of a Go `int`: the value is wrapped into the signed 32-bit
range. -/
def toInt32 (x : Int) : Int := (x + 2147483648) % 4294967296 - 2147483648

/-- The local struct `saslResponse` that replies are decoded into. -/
structure saslResponse where
  ConversationID : Int
  Code : Int
  Done : Bool
  Payload : Bytes
deriving DecidableEq, Repr

/-- The zero value of `saslResponse`, the initial content of `var saslResp saslResponse`. -/
def saslResponse.zeroValue : saslResponse :=
  { ConversationID := 0, Code := 0, Done := false, Payload := [] }

/-- The two `command.Read` values that the function builds: the data base name and the
elements of the command document. -/
inductive Command where
  | saslStart (db : String) (mechanism : String) (payload : Bytes)
  | saslContinue (db : String) (conversationId : Int) (payload : Bytes)
deriving DecidableEq, Repr

/-- Whether a command is a `saslContinue` command. -/
def Command.isContinue : Command → Bool
  | Command.saslStart _ _ _ => false
  | Command.saslContinue _ _ _ => true

/-- Modelled from the spec: the helpers `newError` and `newAuthError` are not part of the
given sources. Following the spec's error taxonomy (a mechanism error carries the mechanism
and its cause, a protocol error carries a detail) each of them builds an error value from
its two arguments; the argument of type `error` may be `nil`. -/
inductive Error where
  | newError (err : Option Err) (mech : String)
  | newAuthError (msg : String) (inner : Option Err)
deriving DecidableEq, Repr

/-- The interface `SaslClient` over a client whose internal state has type `σ`. `Start` and
`Next` may change the state; `Completed` reads it. `Close` is present exactly when the
client also implements `SaslClientCloser`. -/
structure SaslClient (σ : Type) where
  Start : σ → σ × String × Bytes × Option Err
  Next : σ → Bytes → σ × Bytes × Option Err
  Completed : σ → Bool
  Close : Option (σ → σ)

/-- The command channel over a connection whose state has type `χ`: `RoundTrip` is
`command.Read.RoundTrip(ctx, ssdesc, rw)`, which sends the command and hands back the raw
reply or an error (a cancelled context surfaces as such an error), and `Unmarshal` is
`bson.Unmarshal(rdr, &saslResp)`, which decodes into the struct it is given. -/
structure ReadWriter (χ : Type) where
  RoundTrip : χ → Command → SelectedServer → χ × Bytes × Option Err
  Unmarshal : Bytes → saslResponse → saslResponse × Option Err

/-- What a run does to its collaborators, in order. -/
inductive Event where
  | Start
  | Next (challenge : Bytes)
  | Completed (result : Bool)
  | Close
  | RoundTrip (cmd : Command)
  | Reply (resp : saslResponse)
deriving DecidableEq, Repr

/-- Whether an event is the sending of a command. -/
def Event.isRoundTrip : Event → Bool
  | Event.RoundTrip _ => true
  | _ => false

/-- Whether an event is the sending of a `saslContinue` command. -/
def Event.isContinue : Event → Bool
  | Event.RoundTrip cmd => cmd.isContinue
  | _ => false

/-- Whether an event is a call of `Next`. -/
def Event.isNext : Event → Bool
  | Event.Next _ => true
  | _ => false

/-- Whether an event is a call of `Close`. -/
def Event.isClose : Event → Bool
  | Event.Close => true
  | _ => false

/-- How a run ended: it returned an error value (`none` for `nil`), or the bound on the
number of `saslContinue` commands was reached while the loop was still going. -/
inductive Status where
  | returned (err : Option Error)
  | outOfFuel
deriving DecidableEq, Repr

/-- The result of a run: how it ended, the events in order, and the final states of the
client and of the connection. -/
structure Outcome (σ χ : Type) where
  status : Status
  trace : List Event
  client : σ
  conn : χ
deriving DecidableEq, Repr

/-- Puts the events `evs` in front of the events of `o`. -/
def Outcome.after {σ χ : Type} (evs : List Event) (o : Outcome σ χ) : Outcome σ χ :=
  { o with trace := evs ++ o.trace }

/-- The condition `saslResp.Done && client.Completed()`: its value and the event it causes.
`Completed` is called only when `Done` holds. -/
def doneAndCompleted {σ : Type} (client : SaslClient σ) (saslResp : saslResponse) (s : σ) :
    Bool × List Event :=
  if saslResp.Done then (client.Completed s, [Event.Completed (client.Completed s)])
  else (false, [])

/-- The `for` loop of `ConductSaslConversation`, entered with the variables `saslResp` and
`err` and the states `s` of the client and `c` of the connection. The first argument bounds
the number of `saslContinue` commands: when it is `0` and the loop is about to send one,
the run stops with `Status.outOfFuel`. The variable `err` is the one declared by
`mech, payload, err := client.Start()`; the loop head is only reached right after a
decoding that left it `nil`, which is why both callers pass `none`. -/
def loop {σ χ : Type} (client : SaslClient σ) (rw : ReadWriter χ) (db mech : String)
    (ssdesc : SelectedServer) (cid : Int) :
    Nat → σ → χ → saslResponse → Option Err → Outcome σ χ
  | fuel, s, c, saslResp, err =>
    if saslResp.Code ≠ 0 then
      { status := Status.returned (some (Error.newError err mech)), trace := [],
        client := s, conn := c }
    else
      let check1 := doneAndCompleted client saslResp s
      if check1.1 then
        { status := Status.returned none, trace := check1.2, client := s, conn := c }
      else
        match client.Next s saslResp.Payload with
        | (s1, _, some e) =>
          { status := Status.returned (some (Error.newError (some e) mech)),
            trace := check1.2 ++ [Event.Next saslResp.Payload], client := s1, conn := c }
        | (s1, payload, none) =>
          let check2 := doneAndCompleted client saslResp s1
          let evs := check1.2 ++ [Event.Next saslResp.Payload] ++ check2.2
          if check2.1 then
            { status := Status.returned none, trace := evs, client := s1, conn := c }
          else
            match fuel with
            | 0 => { status := Status.outOfFuel, trace := evs, client := s1, conn := c }
            | fuel + 1 =>
              let saslContinueCmd := Command.saslContinue db (toInt32 cid) payload
              match rw.RoundTrip c saslContinueCmd ssdesc with
              | (c1, _, some e) =>
                { status := Status.returned (some (Error.newError (some e) mech)),
                  trace := evs ++ [Event.RoundTrip saslContinueCmd],
                  client := s1, conn := c1 }
              | (c1, rdr, none) =>
                match rw.Unmarshal rdr saslResp with
                | (_, some e) =>
                  { status := Status.returned
                      (some (Error.newAuthError "unmarshal error" (some e))),
                    trace := evs ++ [Event.RoundTrip saslContinueCmd],
                    client := s1, conn := c1 }
                | (saslResp1, none) =>
                  (loop client rw db mech ssdesc cid fuel s1 c1 saslResp1 none).after
                    (evs ++ [Event.RoundTrip saslContinueCmd, Event.Reply saslResp1])

/-- The body of `ConductSaslConversation` from `client.Start()` on, that is the part whose
return is followed by the deferred `Close`. -/
def conversation {σ χ : Type} (client : SaslClient σ) (rw : ReadWriter χ) (db : String)
    (desc : Server) (fuel : Nat) (s : σ) (c : χ) : Outcome σ χ :=
  match client.Start s with
  | (s1, mech, _, some e) =>
    { status := Status.returned (some (Error.newError (some e) mech)),
      trace := [Event.Start], client := s1, conn := c }
  | (s1, mech, payload, none) =>
    let saslStartCmd := Command.saslStart db mech payload
    let ssdesc : SelectedServer := { Server := desc, Kind := 0 }
    match rw.RoundTrip c saslStartCmd ssdesc with
    | (c1, _, some e) =>
      { status := Status.returned (some (Error.newError (some e) mech)),
        trace := [Event.Start, Event.RoundTrip saslStartCmd], client := s1, conn := c1 }
    | (c1, rdr, none) =>
      match rw.Unmarshal rdr saslResponse.zeroValue with
      | (_, some e) =>
        { status := Status.returned (some (Error.newAuthError "unmarshall error" (some e))),
          trace := [Event.Start, Event.RoundTrip saslStartCmd], client := s1, conn := c1 }
      | (saslResp, none) =>
        let cid := saslResp.ConversationID
        (loop client rw db mech ssdesc cid fuel s1 c1 saslResp none).after
          [Event.Start, Event.RoundTrip saslStartCmd, Event.Reply saslResp]

/-- The deferred call `closer.Close()`: it runs when the function returns, and only for a
client that implements `SaslClientCloser`. -/
def runDeferred {σ χ : Type} (client : SaslClient σ) (o : Outcome σ χ) : Outcome σ χ :=
  match o.status, client.Close with
  | Status.returned _, some close =>
    { o with trace := o.trace ++ [Event.Close], client := close o.client }
  | _, _ => o

/-- The function `ConductSaslConversation`. The context `ctx` only reaches `RoundTrip`
and is part of the channel; `defaultAuthDB` is a constant of the package that is not in
the given sources; `fuel` bounds the number of `saslContinue` commands (see `loop`). -/
def ConductSaslConversation {σ χ : Type} (defaultAuthDB : String) (fuel : Nat)
    (desc : Server) (rw : ReadWriter χ) (db : String) (client : SaslClient σ)
    (s : σ) (c : χ) : Outcome σ χ :=
  if desc.Kind = ServerKind.RSArbiter then
    { status := Status.returned none, trace := [], client := s, conn := c }
  else
    let db := if db = "" then defaultAuthDB else db
    runDeferred client (conversation client rw db desc fuel s c)

/-- The variables that one iteration of the loop hands to the next: the state of the
client, the state of the connection and the reply held in `saslResp`. -/
structure Exchange (σ χ : Type) where
  client : σ
  conn : χ
  saslResp : saslResponse
deriving DecidableEq, Repr

/-- One `saslContinue` exchange carried out from `x` with no regard to the exit tests of
the loop: `Next` on the payload held, the `saslContinue` command with the payload `Next`
returned, the decoding of the reply. The result is `none` when one of the three fails. -/
def turn {σ χ : Type} (client : SaslClient σ) (rw : ReadWriter χ) (db : String)
    (ssdesc : SelectedServer) (cid : Int) (x : Exchange σ χ) : Option (Exchange σ χ) :=
  match client.Next x.client x.saslResp.Payload with
  | (_, _, some _) => none
  | (s1, payload, none) =>
    match rw.RoundTrip x.conn (Command.saslContinue db (toInt32 cid) payload) ssdesc with
    | (_, _, some _) => none
    | (c1, rdr, none) =>
      match rw.Unmarshal rdr x.saslResp with
      | (_, some _) => none
      | (saslResp1, none) => some { client := s1, conn := c1, saslResp := saslResp1 }

/-- The exchange reached from `x` after `k` turns, when none of them fails. -/
def turns {σ χ : Type} (client : SaslClient σ) (rw : ReadWriter χ) (db : String)
    (ssdesc : SelectedServer) (cid : Int) : Nat → Exchange σ χ → Option (Exchange σ χ)
  | 0, x => some x
  | k + 1, x => (turn client rw db ssdesc cid x).bind (turns client rw db ssdesc cid k)

/-- The number of `saslContinue` commands in a trace. -/
def continues (tr : List Event) : Nat := (tr.filter Event.isContinue).length

/-- The number of commands in a trace. -/
def roundTrips (tr : List Event) : Nat := (tr.filter Event.isRoundTrip).length

/-- The number of calls of `Next` in a trace. -/
def nexts (tr : List Event) : Nat := (tr.filter Event.isNext).length

/-- The number of calls of `Close` in a trace. -/
def closes (tr : List Event) : Nat := (tr.filter Event.isClose).length

/-- The variables of a run that the events determine: the state of the client, the state
of the connection, the reply held in `saslResp` and the byte slice held in `payload`. -/
structure Vars (σ χ : Type) where
  client : σ
  conn : χ
  saslResp : saslResponse
  payload : Bytes
deriving DecidableEq, Repr

/-- The variables at the start of a call: the two states as given, `saslResp` at its zero
value and `payload` nil. -/
def Vars.initial {σ χ : Type} (s : σ) (c : χ) : Vars σ χ :=
  { client := s, conn := c, saslResp := saslResponse.zeroValue, payload := [] }

/-- The effect of one event on the variables: `Start` and `Next` move the client and
assign `payload`, `Close` moves the client, a command moves the connection, a decoded
reply is stored in `saslResp`, and `Completed` changes nothing. -/
def replayStep {σ χ : Type} (client : SaslClient σ) (rw : ReadWriter χ)
    (ssdesc : SelectedServer) (v : Vars σ χ) : Event → Vars σ χ
  | Event.Start =>
    { v with client := (client.Start v.client).1, payload := (client.Start v.client).2.2.1 }
  | Event.Next challenge =>
    { v with client := (client.Next v.client challenge).1,
             payload := (client.Next v.client challenge).2.1 }
  | Event.Completed _ => v
  | Event.Close =>
    { v with client := match client.Close with
                       | some close => close v.client
                       | none => v.client }
  | Event.RoundTrip cmd => { v with conn := (rw.RoundTrip v.conn cmd ssdesc).1 }
  | Event.Reply resp => { v with saslResp := resp }

/-- The variables after the events of a trace, starting from `v`. -/
def replay {σ χ : Type} (client : SaslClient σ) (rw : ReadWriter χ)
    (ssdesc : SelectedServer) (v : Vars σ χ) (tr : List Event) : Vars σ χ :=
  tr.foldl (replayStep client rw ssdesc) v

/-- The error that the call recorded by an event returns when it is made with the
variables `v`; `none` for `nil` and for the events that are not a call that can fail. -/
def callError {σ χ : Type} (client : SaslClient σ) (rw : ReadWriter χ)
    (ssdesc : SelectedServer) (v : Vars σ χ) : Event → Option Err
  | Event.Start => (client.Start v.client).2.2.2
  | Event.Next challenge => (client.Next v.client challenge).2.2
  | Event.RoundTrip cmd => (rw.RoundTrip v.conn cmd ssdesc).2.2
  | _ => none

/-- A property of every position of a trace: `P` holds of the variables replayed up to
the position, of the event at the position and of the events after it. -/
def AtEvery {σ χ : Type} (client : SaslClient σ) (rw : ReadWriter χ)
    (ssdesc : SelectedServer) (P : Vars σ χ → Event → List Event → Prop)
    (v : Vars σ χ) (tr : List Event) : Prop :=
  ∀ pre ev post, tr = pre ++ ev :: post → P (replay client rw ssdesc v pre) ev post

/-- Whether an event is a decoded reply. -/
def Event.isReply : Event → Bool
  | Event.Reply _ => true
  | _ => false

/-- Whether an event is the call of `Start`. -/
def Event.isStart : Event → Bool
  | Event.Start => true
  | _ => false

/-- The number of calls of `Start` in a trace. -/
def starts (tr : List Event) : Nat := (tr.filter Event.isStart).length

/-- The first error ends the run: if the call recorded by `ev`, made with the variables
`v`, returns the error `e`, then the run has returned `newError(e, mech)` and the events
after `ev` are exactly `tail`. -/
def FirstError {σ χ : Type} (client : SaslClient σ) (rw : ReadWriter χ)
    (ssdesc : SelectedServer) (stat : Status) (mech : String) (tail : List Event)
    (v : Vars σ χ) (ev : Event) (post : List Event) : Prop :=
  ∀ e, callError client rw ssdesc v ev = some e →
    stat = Status.returned (some (Error.newError (some e) mech)) ∧ post = tail

/-- The error on a nonzero code carries no code: if `ev` is a decoded reply with a nonzero
code, the run has returned `newError(nil, mech)`. -/
def CodeLost {σ χ : Type} (stat : Status) (mech : String)
    (_ : Vars σ χ) (ev : Event) (_ : List Event) : Prop :=
  ∀ resp, ev = Event.Reply resp → resp.Code ≠ 0 →
    stat = Status.returned (some (Error.newError none mech))

/-- A property of every position of a trace `tr` that comes after the events `pfx`: `P`
holds of the events before the position, `pfx` included, and of the event at the
position. -/
def After (P : List Event → Event → Prop) (pfx tr : List Event) : Prop :=
  ∀ pre ev post, tr = pre ++ ev :: post → P (pfx ++ pre) ev

/-- What the calls and commands of a run that starts with the variables `v0` carry, for
an event `ev` that comes after the events `pre`: a call of `Next` receives the payload of
the most recent reply; a `saslContinue` command carries the payload returned by the most
recent call of `Next` and the conversation id of the first reply, the reply to the
`saslStart` command, converted to `int32`; the `saslStart` command comes right after
`Start` and carries the mechanism name and the payload that `Start` returned. -/
def Carries {σ χ : Type} (client : SaslClient σ) (rw : ReadWriter χ)
    (ssdesc : SelectedServer) (v0 : Vars σ χ) (pre : List Event) (ev : Event) : Prop :=
  (∀ p, ev = Event.Next p →
    ∃ pre0 resp mid, pre = pre0 ++ Event.Reply resp :: mid ∧
      (∀ e ∈ mid, e.isReply = false) ∧ p = resp.Payload) ∧
  (∀ d i pl, ev = Event.RoundTrip (Command.saslContinue d i pl) →
    (∃ pre0 p mid, pre = pre0 ++ Event.Next p :: mid ∧ (∀ e ∈ mid, e.isNext = false) ∧
      pl = (client.Next (replay client rw ssdesc v0 pre0).client p).2.1) ∧
    (∃ d0 m0 pl0 r0 rest,
      pre = Event.Start :: Event.RoundTrip (Command.saslStart d0 m0 pl0) ::
        Event.Reply r0 :: rest ∧
      i = toInt32 r0.ConversationID)) ∧
  (∀ d m pl, ev = Event.RoundTrip (Command.saslStart d m pl) →
    pre = [Event.Start] ∧ m = (client.Start v0.client).2.1 ∧
      pl = (client.Start v0.client).2.2.1)

end auth

/-! ## Sample data used to evaluate the definitions -/

namespace sample

open description

/-- A stand-in for `Canonicalize` and `NewTagSetFromMap`: lower-casing, and one tag per
entry of the map in the order given. -/
def ext : Externals where
  Canonicalize := fun a => String.mk (a.data.map Char.toLower)
  NewTagSetFromMap := fun m => m.map (fun kv => { Name := kv.1, Value := kv.2 })

/-- A heartbeat reply of a replica-set primary. -/
def primaryReply : result.IsMaster where
  Arbiters := ["D:27017"]
  ArbiterOnly := false
  Compression := ["snappy"]
  ElectionID := [0, 0, 0, 0, 0, 0, 0, 0, 0, 0, 0, 1]
  Hidden := false
  Hosts := ["A:27017", "B:27017", "A:27017"]
  IsMaster := true
  IsReplicaSet := false
  LastWriteTimestamp := 1500
  MaxBSONObjectSize := 16777216
  MaxMessageSizeBytes := 48000000
  MaxWriteBatchSize := 1000
  Me := "A:27017"
  MaxWireVersion := 6
  MinWireVersion := 0
  Msg := ""
  OK := 1
  Passives := ["C:27017"]
  Secondary := false
  SetName := "rs0"
  SetVersion := 3
  Tags := [("dc", "east")]

/-- A server description of the given kind. -/
def desc (kind : ServerKind) : Server :=
  { NewServer ext 0 "A:27017" primaryReply with Kind := kind }

/-- A heartbeat reply with the primary flag, the set name `rs0` and the replica-set flag. -/
def ghostReply : result.IsMaster := { primaryReply with IsReplicaSet := true }

/-- A heartbeat reply that is not ok but carries hosts, flags and wire versions. -/
def notOkReply : result.IsMaster := { primaryReply with OK := 0 }

open auth in
/-- A scripted client. Its state counts the calls of `Next`; it is completed once `need`
calls were made; `Close`, when present, adds 100 to the state. -/
def client (need : Nat) (closer : Bool) : SaslClient Nat where
  Start := fun s => (s, "PLAIN", [1], none)
  Next := fun s challenge => (s + 1, challenge ++ [s], none)
  Completed := fun s => decide (need ≤ s)
  Close := if closer then some (fun s => s + 100) else none

open auth in
/-- A scripted server. Its state counts the commands received. The reply to command
number `n` (from 0) has conversation id 7, code 18 if `n = badAt` and 0 otherwise, and
`done` set if `doneFrom ≤ n`. -/
def server (doneFrom badAt : Nat) : ReadWriter Nat where
  RoundTrip := fun c _ _ =>
    (c + 1, [7, if c = badAt then 18 else 0, if doneFrom ≤ c then 1 else 0, c], none)
  Unmarshal := fun rdr prev =>
    match rdr with
    | [cid, code, done, p] =>
      ({ ConversationID := (cid : Int), Code := (code : Int), Done := decide (done = 1),
         Payload := [p] }, none)
    | _ => (prev, some "malformed reply")

open auth in
/-- A scripted server like `server`, whose reply number `badAt` carries the code `code`. -/
def serverCode (doneFrom badAt code : Nat) : ReadWriter Nat where
  RoundTrip := fun c _ _ =>
    (c + 1, [7, if c = badAt then code else 0, if doneFrom ≤ c then 1 else 0, c], none)
  Unmarshal := (server doneFrom badAt).Unmarshal

open auth in
/-- A scripted client like `client` with `Close`, whose call of `Next` number `failAt`
(from 0) fails. -/
def clientFailing (need failAt : Nat) : SaslClient Nat where
  Start := fun s => (s, "PLAIN", [1], none)
  Next := fun s challenge =>
    (s + 1, challenge ++ [s], if s = failAt then some "next failed" else none)
  Completed := fun s => decide (need ≤ s)
  Close := some (fun s => s + 100)

open auth in
/-- A scripted server like `server` that never reports an error code and whose reply
number `n` carries the conversation id `7 + n`. -/
def serverIds (doneFrom : Nat) : ReadWriter Nat where
  RoundTrip := fun c _ _ => (c + 1, [7 + c, 0, if doneFrom ≤ c then 1 else 0, c], none)
  Unmarshal := (server doneFrom 0).Unmarshal

/-- The helpers of a call in which the tag map is ranged over in the opposite order:
the same canonicalization as `ext`, the tags listed in reverse. -/
def extReversed : Externals where
  Canonicalize := ext.Canonicalize
  NewTagSetFromMap := fun m => (ext.NewTagSetFromMap m).reverse

/-- A heartbeat reply of a primary with two tags. -/
def taggedReply : result.IsMaster :=
  { primaryReply with Tags := [("dc", "east"), ("rack", "r1")] }

end sample

/-! ## Theorems about `NewServer` and `SetAverageRTT` -/

section DescriptionTheorems

open description

/-- The loop that appends canonicalized addresses computes `members ++ map Canonicalize hs`. -/
theorem appendCanonical_eq (ext : Externals) (members : List address.Address)
    (hs : List String) :
    appendCanonical ext members hs = members ++ hs.map ext.Canonicalize := by
  unfold appendCanonical
  induction hs generalizing members with
  | nil => simp
  | cons h t ih => simp [List.foldl_cons, ih]

/-- On the ok path the members are the canonicalized hosts, passives and arbiters. -/
theorem NewServer_members_ok (ext : Externals) (now : time.Time) (addr : address.Address)
    (isMaster : result.IsMaster) (hok : isMaster.OK = 1) :
    (NewServer ext now addr isMaster).Members =
      (isMaster.Hosts ++ isMaster.Passives ++ isMaster.Arbiters).map ext.Canonicalize := by
  unfold NewServer
  simp only [hok, ne_eq, not_true_eq_false, if_false, appendCanonical_eq]
  split_ifs <;> simp

/-- C1: for every address and every heartbeat reply with `OK == 1`, the `Kind` of
`NewServer` follows the priority table: `RSGhost` if `IsReplicaSet`; otherwise, with a
non-empty `SetName`, `RSPrimary` if `IsMaster`, else `RSMember` if `Hidden`, else
`RSSecondary` if `Secondary`, else `RSArbiter` if `ArbiterOnly`, else `RSMember`; otherwise
`Mongos` if `Msg == "isdbgrid"`; otherwise `Standalone`. -/
theorem NewServer_kind_table (ext : Externals) (now : time.Time) (addr : address.Address)
    (isMaster : result.IsMaster) (hok : isMaster.OK = 1) :
    (NewServer ext now addr isMaster).Kind =
      if isMaster.IsReplicaSet = true then ServerKind.RSGhost
      else if isMaster.SetName ≠ "" then
        (if isMaster.IsMaster = true then ServerKind.RSPrimary
         else if isMaster.Hidden = true then ServerKind.RSMember
         else if isMaster.Secondary = true then ServerKind.RSSecondary
         else if isMaster.ArbiterOnly = true then ServerKind.RSArbiter
         else ServerKind.RSMember)
      else if isMaster.Msg = "isdbgrid" then ServerKind.Mongos
      else ServerKind.Standalone := by
  unfold NewServer
  simp only [hok, ne_eq, not_true_eq_false, if_false]
  split_ifs <;> rfl

/-- C1, evaluated: the sample primary reply is ok and is classified as `RSPrimary`. -/
theorem NewServer_kind_table_witness :
    sample.primaryReply.OK = 1 ∧
      (NewServer sample.ext 0 "A:27017" sample.primaryReply).Kind = ServerKind.RSPrimary :=
  ⟨by decide,
    (NewServer_kind_table sample.ext 0 "A:27017" sample.primaryReply (by decide)).trans
      (by decide)⟩

/-- C7: for every address and every heartbeat reply with `OK != 1`, `NewServer` returns a
description whose `LastError` is non-nil (the error "not ok"), whose `Members` is empty,
whose `Kind` is the zero value of `ServerKind` and whose `WireVersion` is nil, whatever
the rest of the reply holds. -/
theorem NewServer_not_ok (ext : Externals) (now : time.Time) (addr : address.Address)
    (isMaster : result.IsMaster) (hok : isMaster.OK ≠ 1) :
    (NewServer ext now addr isMaster).LastError ≠ none ∧
      (NewServer ext now addr isMaster).LastError = some "not ok" ∧
      (NewServer ext now addr isMaster).Members = [] ∧
      (NewServer ext now addr isMaster).Kind = ServerKind.zeroValue ∧
      (NewServer ext now addr isMaster).WireVersion = none := by
  unfold NewServer
  simp only [hok, ne_eq, not_false_eq_true, if_true]
  split_ifs <;> simp

/-- C7, evaluated: the sample reply with `OK = 0`, three hosts and wire versions 0 to 6
gives an error, no members, the zero kind and no wire version. -/
theorem NewServer_not_ok_witness :
    sample.notOkReply.OK ≠ 1 ∧ sample.notOkReply.Hosts.length = 3 ∧
      (NewServer sample.ext 0 "A:27017" sample.notOkReply).LastError ≠ none ∧
      (NewServer sample.ext 0 "A:27017" sample.notOkReply).Members = [] ∧
      (NewServer sample.ext 0 "A:27017" sample.notOkReply).Kind = ServerKind.zeroValue ∧
      (NewServer sample.ext 0 "A:27017" sample.notOkReply).WireVersion = none :=
  have h := NewServer_not_ok sample.ext 0 "A:27017" sample.notOkReply (by decide)
  ⟨by decide, by decide, h.1, h.2.2.1, h.2.2.2.1, h.2.2.2.2⟩

/-- C8: for every heartbeat reply with `OK == 1`, `Members` is
`map Canonicalize (Hosts ++ Passives ++ Arbiters)`: the same order, a length equal to the
sum of the three lengths, and every address of the input occurs (canonicalized) in the
output at least as many times as in the input, so nothing is dropped as a duplicate. -/
theorem NewServer_members (ext : Externals) (now : time.Time) (addr : address.Address)
    (isMaster : result.IsMaster) (hok : isMaster.OK = 1) :
    (NewServer ext now addr isMaster).Members =
        (isMaster.Hosts ++ isMaster.Passives ++ isMaster.Arbiters).map ext.Canonicalize ∧
      (NewServer ext now addr isMaster).Members.length =
        isMaster.Hosts.length + isMaster.Passives.length + isMaster.Arbiters.length ∧
      ∀ a : String,
        (isMaster.Hosts ++ isMaster.Passives ++ isMaster.Arbiters).count a ≤
          (NewServer ext now addr isMaster).Members.count (ext.Canonicalize a) := by
  rw [NewServer_members_ok ext now addr isMaster hok]
  refine ⟨rfl, by simp [Nat.add_assoc], fun a => ?_⟩
  exact List.count_le_count_map _ _ _

/-- C8, evaluated: hosts `[A, B, A]`, passives `[C]`, arbiters `[D]` give the five
canonical addresses in that order, the repeated one twice. -/
theorem NewServer_members_witness :
    sample.primaryReply.OK = 1 ∧
      (NewServer sample.ext 0 "A:27017" sample.primaryReply).Members =
        ["a:27017", "b:27017", "a:27017", "c:27017", "d:27017"] :=
  ⟨by decide,
    (NewServer_members sample.ext 0 "A:27017" sample.primaryReply (by decide)).1.trans
      (by decide)⟩

/-- C9 as stated fails: the sample reply has `OK = 1`, the primary flag and the set name
`rs0`, but it also has the replica-set flag, and its kind is `RSGhost`, not `RSPrimary`. -/
theorem NewServer_primary_counterexample :
    sample.ghostReply.OK = 1 ∧ sample.ghostReply.IsMaster = true ∧
      sample.ghostReply.SetName = "rs0" ∧
      (NewServer sample.ext 0 "A:27017" sample.ghostReply).Kind = ServerKind.RSGhost ∧
      (NewServer sample.ext 0 "A:27017" sample.ghostReply).Kind ≠ ServerKind.RSPrimary := by
  decide

/-- C9, amended: for every address and every heartbeat reply with `OK == 1`, the primary
flag, the set name `rs0` and the replica-set flag `IsReplicaSet` not set, `NewServer`
returns a description with `Kind == RSPrimary`, whatever the other fields are. -/
theorem NewServer_primary (ext : Externals) (now : time.Time) (addr : address.Address)
    (isMaster : result.IsMaster) (hok : isMaster.OK = 1) (hprim : isMaster.IsMaster = true)
    (hname : isMaster.SetName = "rs0") (hrs : isMaster.IsReplicaSet = false) :
    (NewServer ext now addr isMaster).Kind = ServerKind.RSPrimary := by
  unfold NewServer
  simp [hok, hprim, hname, hrs]

/-- C9 amended, evaluated on the sample primary reply. -/
theorem NewServer_primary_witness :
    sample.primaryReply.OK = 1 ∧ sample.primaryReply.IsMaster = true ∧
      sample.primaryReply.SetName = "rs0" ∧ sample.primaryReply.IsReplicaSet = false ∧
      (NewServer sample.ext 0 "A:27017" sample.primaryReply).Kind = ServerKind.RSPrimary :=
  ⟨by decide, by decide, by decide, by decide,
    NewServer_primary sample.ext 0 "A:27017" sample.primaryReply (by decide) (by decide)
      (by decide) (by decide)⟩

/-- C10: for every description `s` and duration `d`, `s.SetAverageRTT(d)` has
`AverageRTTSet` false if `d` is `UnsetRTT` (which is -1ms, that is -1000000ns), whatever
`s` held, and otherwise has `AverageRTTSet` true and `AverageRTT == d`; in particular
for `d = 0` and `d = 5ms`. -/
theorem SetAverageRTT_flag (s : Server) (d : time.Duration) :
    (if d = UnsetRTT then (s.SetAverageRTT d).AverageRTTSet = false
      else (s.SetAverageRTT d).AverageRTTSet = true ∧ (s.SetAverageRTT d).AverageRTT = d) ∧
      UnsetRTT = -1000000 ∧
      (s.SetAverageRTT UnsetRTT).AverageRTTSet = false ∧
      ((s.SetAverageRTT 0).AverageRTTSet = true ∧ (s.SetAverageRTT 0).AverageRTT = 0) ∧
      ((s.SetAverageRTT (5 * time.Millisecond)).AverageRTTSet = true ∧
        (s.SetAverageRTT (5 * time.Millisecond)).AverageRTT = 5 * time.Millisecond) := by
  have h0 : (0 : time.Duration) ≠ UnsetRTT := by decide
  have h5 : (5 * time.Millisecond : time.Duration) ≠ UnsetRTT := by decide
  refine ⟨?_, by decide, ?_, ?_, ?_⟩
  · by_cases h : d = UnsetRTT <;> simp [Server.SetAverageRTT, h]
  · simp [Server.SetAverageRTT]
  · simp [Server.SetAverageRTT, h0]
  · simp [Server.SetAverageRTT, h5]

/-- The canonical address as the code computes it: the test for emptiness is made on the
canonicalized self-reported address. -/
theorem NewServer_canonicalAddr (ext : Externals) (now : time.Time) (addr : address.Address)
    (isMaster : result.IsMaster) :
    (NewServer ext now addr isMaster).CanonicalAddr =
      if ext.Canonicalize isMaster.Me = "" then addr else ext.Canonicalize isMaster.Me := by
  unfold NewServer
  by_cases hc : ext.Canonicalize isMaster.Me = ""
  · simp only [hc, if_true]
    split_ifs <;> rfl
  · simp only [hc, if_false]
    split_ifs <;> rfl

/-- C11: for every input address `addr` and every heartbeat reply, ok or not, `Addr` is
`addr`, and `CanonicalAddr` is `Canonicalize(Me)` when `Me` is non-empty and `addr`
itself, not canonicalized, when `Me` is empty. `Canonicalize` is a function of another
package; what is used of it is that it maps the empty address, and no other, to the
empty address. -/
theorem NewServer_addresses (ext : Externals) (now : time.Time) (addr : address.Address)
    (isMaster : result.IsMaster)
    (hne : ∀ a : address.Address, a ≠ "" → ext.Canonicalize a ≠ "")
    (hempty : ext.Canonicalize "" = "") :
    (NewServer ext now addr isMaster).Addr = addr ∧
      (isMaster.Me ≠ "" →
        (NewServer ext now addr isMaster).CanonicalAddr = ext.Canonicalize isMaster.Me) ∧
      (isMaster.Me = "" → (NewServer ext now addr isMaster).CanonicalAddr = addr) := by
  refine ⟨?_, fun hme => ?_, fun hme => ?_⟩
  · unfold NewServer
    simp only []
    split_ifs <;> rfl
  · rw [NewServer_canonicalAddr, if_neg (hne _ hme)]
  · rw [NewServer_canonicalAddr, hme, if_pos hempty]

/-- The sample canonicalization maps the empty address, and no other, to the empty
address. -/
theorem sample_canonicalize_empty :
    (∀ a : address.Address, a ≠ "" → sample.ext.Canonicalize a ≠ "") ∧
      sample.ext.Canonicalize "" = "" := by
  refine ⟨fun a ha h => ha ?_, rfl⟩
  have hd : (sample.ext.Canonicalize a).data = [] := by rw [h]
  have hd2 : a.data = [] := by
    simpa [sample.ext] using hd
  exact String.ext hd2

/-- C11, evaluated: a reply that reports itself as `A:27017` and one that reports no
address, both received from the address `X:1`. -/
theorem NewServer_addresses_witness :
    (NewServer sample.ext 0 "X:1" sample.primaryReply).Addr = "X:1" ∧
      (NewServer sample.ext 0 "X:1" sample.primaryReply).CanonicalAddr = "a:27017" ∧
      (NewServer sample.ext 0 "X:1" { sample.notOkReply with Me := "" }).CanonicalAddr
        = "X:1" :=
  have h1 := NewServer_addresses sample.ext 0 "X:1" sample.primaryReply
    sample_canonicalize_empty.1 sample_canonicalize_empty.2
  have h2 := NewServer_addresses sample.ext 0 "X:1" { sample.notOkReply with Me := "" }
    sample_canonicalize_empty.1 sample_canonicalize_empty.2
  ⟨h1.1, (h1.2.1 (by decide)).trans (by decide), h2.2.2 rfl⟩

/-- C12: for every address and heartbeat reply, `WireVersion` is present if and only if
`OK == 1`, and when present its `Min` and `Max` are the reply's `MinWireVersion` and
`MaxWireVersion`. -/
theorem NewServer_wireVersion (ext : Externals) (now : time.Time) (addr : address.Address)
    (isMaster : result.IsMaster) :
    ((NewServer ext now addr isMaster).WireVersion.isSome = true ↔ isMaster.OK = 1) ∧
      (NewServer ext now addr isMaster).WireVersion =
        if isMaster.OK = 1 then
          some { Min := isMaster.MinWireVersion, Max := isMaster.MaxWireVersion }
        else none := by
  have h : (NewServer ext now addr isMaster).WireVersion =
      if isMaster.OK = 1 then
        some { Min := isMaster.MinWireVersion, Max := isMaster.MaxWireVersion }
      else none := by
    unfold NewServer
    by_cases hok : isMaster.OK = 1
    · simp only [hok, ne_eq, not_true_eq_false, if_false, if_true]
    · simp only [hok, ne_eq, not_false_eq_true, if_true, if_false]
      split_ifs <;> rfl
  refine ⟨?_, h⟩
  rw [h]
  by_cases hok : isMaster.OK = 1 <;> simp [hok]

/-- C15: `SetAverageRTT` is a pure transformation: the receiver is passed by value, and
for every description `s` and duration `d` the result differs from `s` at most in
`AverageRTT` and `AverageRTTSet`; each of the other eighteen fields of the result is the
field of `s`. -/
theorem SetAverageRTT_frame (s : Server) (d : time.Duration) :
    s.SetAverageRTT d =
        { s with AverageRTT := d, AverageRTTSet := decide (d ≠ UnsetRTT) } ∧
      (s.SetAverageRTT d).Addr = s.Addr ∧
      (s.SetAverageRTT d).Compression = s.Compression ∧
      (s.SetAverageRTT d).CanonicalAddr = s.CanonicalAddr ∧
      (s.SetAverageRTT d).ElectionID = s.ElectionID ∧
      (s.SetAverageRTT d).HeartbeatInterval = s.HeartbeatInterval ∧
      (s.SetAverageRTT d).LastError = s.LastError ∧
      (s.SetAverageRTT d).LastUpdateTime = s.LastUpdateTime ∧
      (s.SetAverageRTT d).LastWriteTime = s.LastWriteTime ∧
      (s.SetAverageRTT d).MaxBatchCount = s.MaxBatchCount ∧
      (s.SetAverageRTT d).MaxDocumentSize = s.MaxDocumentSize ∧
      (s.SetAverageRTT d).MaxMessageSize = s.MaxMessageSize ∧
      (s.SetAverageRTT d).Members = s.Members ∧
      (s.SetAverageRTT d).ReadOnly = s.ReadOnly ∧
      (s.SetAverageRTT d).SetName = s.SetName ∧
      (s.SetAverageRTT d).SetVersion = s.SetVersion ∧
      (s.SetAverageRTT d).Tags = s.Tags ∧
      (s.SetAverageRTT d).Kind = s.Kind ∧
      (s.SetAverageRTT d).WireVersion = s.WireVersion := by
  by_cases h : d = UnsetRTT <;> simp [Server.SetAverageRTT, h]

/-- C16 as stated fails: two calls with the same address and the same heartbeat reply,
made at two different readings of the clock, return descriptions that differ in
`LastUpdateTime`; and two calls at the same reading of the clock, in which the tag map
is ranged over in two different orders, return descriptions that differ in `Tags`. -/
theorem NewServer_pure_counterexample :
    NewServer sample.ext 0 "A:27017" sample.primaryReply ≠
        NewServer sample.ext 1 "A:27017" sample.primaryReply ∧
      (NewServer sample.ext 0 "A:27017" sample.primaryReply).LastUpdateTime = 0 ∧
      (NewServer sample.ext 1 "A:27017" sample.primaryReply).LastUpdateTime = 1 ∧
      NewServer sample.ext 0 "A:27017" sample.taggedReply ≠
        NewServer sample.extReversed 0 "A:27017" sample.taggedReply ∧
      (NewServer sample.ext 0 "A:27017" sample.taggedReply).Tags =
        [{ Name := "dc", Value := "east" }, { Name := "rack", Value := "r1" }] ∧
      (NewServer sample.extReversed 0 "A:27017" sample.taggedReply).Tags =
        [{ Name := "rack", Value := "r1" }, { Name := "dc", Value := "east" }] := by
  decide

/-- The tags of a description are what `NewTagSetFromMap` returned in the call. -/
theorem NewServer_tags (ext : Externals) (now : time.Time) (addr : address.Address)
    (isMaster : result.IsMaster) :
    (NewServer ext now addr isMaster).Tags = ext.NewTagSetFromMap isMaster.Tags := by
  unfold NewServer
  simp only []
  split_ifs <;> rfl

/-- The update time of a description is the reading of the clock in the call. -/
theorem NewServer_lastUpdateTime (ext : Externals) (now : time.Time)
    (addr : address.Address) (isMaster : result.IsMaster) :
    (NewServer ext now addr isMaster).LastUpdateTime = now := by
  unfold NewServer
  simp only []
  split_ifs <;> rfl

/-- Two calls with the same arguments and the same canonicalization: the first result is
the second with the update time and the tags of the first call. -/
theorem NewServer_two_calls (canon : address.Address → address.Address)
    (tags1 tags2 : List (String × String) → tag.Set) (now1 now2 : time.Time)
    (addr : address.Address) (isMaster : result.IsMaster) :
    NewServer { Canonicalize := canon, NewTagSetFromMap := tags1 } now1 addr isMaster =
      { NewServer { Canonicalize := canon, NewTagSetFromMap := tags2 } now2 addr isMaster with
        LastUpdateTime := now1, Tags := tags1 isMaster.Tags } := by
  unfold NewServer
  by_cases h1 : canon isMaster.Me = "" <;> by_cases h2 : isMaster.OK = 1 <;>
    simp only [h1, h2, ne_eq, not_true_eq_false, not_false_eq_true, if_true, if_false]
  all_goals split_ifs <;> rfl

/-- C16, amended: `NewServer` depends on its two arguments, on the clock and on the order
in which the tag map is ranged over, and on nothing else: two calls with the same address
and the same heartbeat reply (the first at the clock reading `now1` with the helpers
`ext1`, the second at `now2` with `ext2`, canonicalization being the same function in
both) return descriptions that are equal in every field except `LastUpdateTime`, which is
the reading of the clock at the call, and `Tags`, which is what `NewTagSetFromMap`
returned in that call for the reply's tag map; when both calls list the same tags, the
two values of `Tags` are permutations of each other. -/
theorem NewServer_clock_only (ext1 ext2 : Externals) (now1 now2 : time.Time)
    (addr : address.Address) (isMaster : result.IsMaster)
    (hcanon : ext1.Canonicalize = ext2.Canonicalize) :
    NewServer ext1 now1 addr isMaster =
        { NewServer ext2 now2 addr isMaster with
          LastUpdateTime := now1, Tags := ext1.NewTagSetFromMap isMaster.Tags } ∧
      (NewServer ext1 now1 addr isMaster).LastUpdateTime = now1 ∧
      (NewServer ext2 now2 addr isMaster).LastUpdateTime = now2 ∧
      (NewServer ext1 now1 addr isMaster).Tags = ext1.NewTagSetFromMap isMaster.Tags ∧
      (NewServer ext2 now2 addr isMaster).Tags = ext2.NewTagSetFromMap isMaster.Tags ∧
      (∀ base : tag.Set, (ext1.NewTagSetFromMap isMaster.Tags).Perm base →
        (ext2.NewTagSetFromMap isMaster.Tags).Perm base →
        (NewServer ext1 now1 addr isMaster).Tags.Perm
          (NewServer ext2 now2 addr isMaster).Tags) := by
  refine ⟨?_, NewServer_lastUpdateTime _ _ _ _, NewServer_lastUpdateTime _ _ _ _,
    NewServer_tags _ _ _ _, NewServer_tags _ _ _ _, ?_⟩
  · obtain ⟨canon1, tags1⟩ := ext1
    obtain ⟨canon2, tags2⟩ := ext2
    have hc : canon1 = canon2 := hcanon
    subst hc
    exact NewServer_two_calls canon1 tags1 tags2 now1 now2 addr isMaster
  · intro base hp1 hp2
    rw [NewServer_tags, NewServer_tags]
    exact hp1.trans hp2.symm

/-- C16 amended, evaluated: one call at clock reading 0 that lists the tags as `dc`,
`rack`, one at clock reading 1 that lists them as `rack`, `dc`; the two descriptions
agree once `LastUpdateTime` and `Tags` are set aside, and the two tag sets are
permutations of each other. -/
theorem NewServer_clock_only_witness :
    sample.ext.Canonicalize = sample.extReversed.Canonicalize ∧
      NewServer sample.ext 0 "A:27017" sample.taggedReply =
        { NewServer sample.extReversed 1 "A:27017" sample.taggedReply with
          LastUpdateTime := 0,
          Tags := [{ Name := "dc", Value := "east" }, { Name := "rack", Value := "r1" }] } ∧
      (NewServer sample.ext 0 "A:27017" sample.taggedReply).Tags.Perm
        (NewServer sample.extReversed 1 "A:27017" sample.taggedReply).Tags :=
  have h := NewServer_clock_only sample.ext sample.extReversed 0 1 "A:27017"
    sample.taggedReply rfl
  ⟨rfl, h.1,
    h.2.2.2.2.2 [{ Name := "dc", Value := "east" }, { Name := "rack", Value := "r1" }]
      (List.Perm.refl _) (List.reverse_perm _)⟩

/-- C17: for every heartbeat reply, ok or not, `NewServer` copies through `Compression`,
`ElectionID`, `LastWriteTime` (from `LastWriteTimestamp`), `MaxBatchCount` (from
`MaxWriteBatchSize`), `MaxDocumentSize` (from `MaxBSONObjectSize`), `MaxMessageSize` (from
`MaxMessageSizeBytes`), `SetName` and `SetVersion`, and `Tags` is the tag set built from
the reply's tag map. -/
theorem NewServer_copies (ext : Externals) (now : time.Time) (addr : address.Address)
    (isMaster : result.IsMaster) :
    (NewServer ext now addr isMaster).Compression = isMaster.Compression ∧
      (NewServer ext now addr isMaster).ElectionID = isMaster.ElectionID ∧
      (NewServer ext now addr isMaster).LastWriteTime = isMaster.LastWriteTimestamp ∧
      (NewServer ext now addr isMaster).MaxBatchCount = isMaster.MaxWriteBatchSize ∧
      (NewServer ext now addr isMaster).MaxDocumentSize = isMaster.MaxBSONObjectSize ∧
      (NewServer ext now addr isMaster).MaxMessageSize = isMaster.MaxMessageSizeBytes ∧
      (NewServer ext now addr isMaster).SetName = isMaster.SetName ∧
      (NewServer ext now addr isMaster).SetVersion = isMaster.SetVersion ∧
      (NewServer ext now addr isMaster).Tags = ext.NewTagSetFromMap isMaster.Tags := by
  unfold NewServer
  simp only []
  split_ifs <;> simp

end DescriptionTheorems

/-! ## Theorems about `ConductSaslConversation` -/

section AuthTheorems

open description auth

variable {σ χ : Type}

/-- The only event the exit test can cause is a call of `Completed`. -/
theorem doneAndCompleted_events (client : SaslClient σ) (saslResp : saslResponse) (s : σ)
    (e : Event) (he : e ∈ (doneAndCompleted client saslResp s).2) :
    e = Event.Completed (client.Completed s) := by
  unfold doneAndCompleted at he
  split at he <;> simp at he
  exact he

/-- A reply with a nonzero code makes the loop return at once, with no event. -/
theorem loop_code_ne (client : SaslClient σ) (rw : ReadWriter χ) (db mech : String)
    (ssdesc : SelectedServer) (cid : Int) (fuel : Nat) (s : σ) (c : χ)
    (saslResp : saslResponse) (err : Option Err) (hcode : saslResp.Code ≠ 0) :
    loop client rw db mech ssdesc cid fuel s c saslResp err =
      { status := Status.returned (some (Error.newError err mech)), trace := [],
        client := s, conn := c } := by
  unfold loop
  simp [hcode]

/-- One iteration of the loop, case by case: it returns at once on a nonzero code; or it
stops (returning, or out of fuel) after calls of `Completed` and `Next` and at most one
command whose reply is not decoded; or it sends a `saslContinue` command, decodes the
reply and goes round again with one unit of fuel less. -/
theorem loop_step (client : SaslClient σ) (rw : ReadWriter χ) (db mech : String)
    (ssdesc : SelectedServer) (cid : Int) (fuel : Nat) (s : σ) (c : χ)
    (saslResp : saslResponse) (err : Option Err) :
    (saslResp.Code ≠ 0 ∧
      loop client rw db mech ssdesc cid fuel s c saslResp err =
        { status := Status.returned (some (Error.newError err mech)), trace := [],
          client := s, conn := c }) ∨
    (saslResp.Code = 0 ∧
      ∀ e ∈ (loop client rw db mech ssdesc cid fuel s c saslResp err).trace,
        (∃ b, e = Event.Completed b) ∨ (∃ p, e = Event.Next p) ∨
          (∃ cmd, e = Event.RoundTrip cmd)) ∨
    (saslResp.Code = 0 ∧
      ∃ evs cmd s1 c1 saslResp1 f, fuel = f + 1 ∧
        (∀ e ∈ evs, (∃ b, e = Event.Completed b) ∨ (∃ p, e = Event.Next p)) ∧
        loop client rw db mech ssdesc cid fuel s c saslResp err =
          (loop client rw db mech ssdesc cid f s1 c1 saslResp1 none).after
            (evs ++ [Event.RoundTrip cmd, Event.Reply saslResp1])) := by
  generalize hL : loop client rw db mech ssdesc cid fuel s c saslResp err = o
  by_cases hcode : saslResp.Code = 0
  swap
  · left
    rw [← hL]
    exact ⟨hcode, loop_code_ne client rw db mech ssdesc cid fuel s c saslResp err hcode⟩
  right
  have hev : ∀ (x : σ) (e : Event), e ∈ (doneAndCompleted client saslResp x).2 →
      (∃ b, e = Event.Completed b) := fun x e he =>
    ⟨_, doneAndCompleted_events client saslResp x e he⟩
  unfold loop at hL
  simp only [hcode, ne_eq, not_true_eq_false, if_false] at hL
  by_cases h1 : (doneAndCompleted client saslResp s).1 = true
  · left
    simp only [h1, if_true] at hL
    subst hL
    exact ⟨hcode, fun e he => Or.inl (hev s e he)⟩
  simp only [h1, if_false] at hL
  rcases hN : client.Next s saslResp.Payload with ⟨s1, payload, _ | e1⟩
  swap
  · left
    simp only [hN] at hL
    subst hL
    refine ⟨hcode, fun e he => ?_⟩
    have he2 : e ∈ (doneAndCompleted client saslResp s).2 ++
        [Event.Next saslResp.Payload] := he
    rw [List.mem_append, List.mem_singleton] at he2
    rcases he2 with he2 | he2
    · exact Or.inl (hev s e he2)
    · exact Or.inr (Or.inl ⟨_, he2⟩)
  simp only [hN] at hL
  have hevs : ∀ e ∈ (doneAndCompleted client saslResp s).2 ++
      [Event.Next saslResp.Payload] ++ (doneAndCompleted client saslResp s1).2,
      (∃ b, e = Event.Completed b) ∨ (∃ p, e = Event.Next p) := by
    intro e he
    simp only [List.mem_append, List.mem_singleton] at he
    rcases he with (he | he) | he
    · exact Or.inl (hev s e he)
    · exact Or.inr ⟨_, he⟩
    · exact Or.inl (hev s1 e he)
  have hevs3 : ∀ (cmd : Command), ∀ e ∈ (doneAndCompleted client saslResp s).2 ++
      [Event.Next saslResp.Payload] ++ (doneAndCompleted client saslResp s1).2 ++
      [Event.RoundTrip cmd],
      (∃ b, e = Event.Completed b) ∨ (∃ p, e = Event.Next p) ∨
        (∃ cmd, e = Event.RoundTrip cmd) := by
    intro cmd e he
    rw [List.mem_append, List.mem_singleton] at he
    rcases he with he | he
    · rcases hevs e he with h | h
      · exact Or.inl h
      · exact Or.inr (Or.inl h)
    · exact Or.inr (Or.inr ⟨_, he⟩)
  by_cases h2 : (doneAndCompleted client saslResp s1).1 = true
  · left
    simp only [h2, if_true] at hL
    subst hL
    refine ⟨hcode, fun e he => ?_⟩
    rcases hevs e he with h | h
    · exact Or.inl h
    · exact Or.inr (Or.inl h)
  simp only [h2, if_false] at hL
  cases fuel with
  | zero =>
    left
    simp only [] at hL
    subst hL
    refine ⟨hcode, fun e he => ?_⟩
    rcases hevs e he with h | h
    · exact Or.inl h
    · exact Or.inr (Or.inl h)
  | succ f =>
    simp only [] at hL
    rcases hR : rw.RoundTrip c (Command.saslContinue db (toInt32 cid) payload) ssdesc with
      ⟨c1, rdr, _ | e2⟩
    swap
    · left
      simp only [hR] at hL
      subst hL
      exact ⟨hcode, fun e he => hevs3 _ e he⟩
    simp only [hR] at hL
    rcases hU : rw.Unmarshal rdr saslResp with ⟨saslResp1, _ | e3⟩
    swap
    · left
      simp only [hU] at hL
      subst hL
      exact ⟨hcode, fun e he => hevs3 _ e he⟩
    right
    simp only [hU] at hL
    exact ⟨hcode, _, _, s1, c1, saslResp1, f, rfl, hevs, hL.symm⟩

/-- The part of `ConductSaslConversation` before the loop, case by case: either it returns
after `Start` and at most one command whose reply is not decoded, or it enters the loop
with the decoded reply to the `saslStart` command. -/
theorem conversation_step (client : SaslClient σ) (rw : ReadWriter χ) (db : String)
    (desc : Server) (fuel : Nat) (s : σ) (c : χ) :
    (∀ e ∈ (conversation client rw db desc fuel s c).trace,
        e = Event.Start ∨ ∃ cmd, e = Event.RoundTrip cmd) ∨
    (∃ mech cmd s1 c1 saslResp,
      conversation client rw db desc fuel s c =
        (loop client rw db mech { Server := desc, Kind := 0 } saslResp.ConversationID fuel
          s1 c1 saslResp none).after [Event.Start, Event.RoundTrip cmd, Event.Reply saslResp])
    := by
  generalize hL : conversation client rw db desc fuel s c = o
  unfold conversation at hL
  rcases hS : client.Start s with ⟨s1, mech, payload, _ | e1⟩
  swap
  · left
    simp only [hS] at hL
    subst hL
    intro e he
    exact Or.inl (List.mem_singleton.mp he)
  simp only [hS] at hL
  rcases hR : rw.RoundTrip c (Command.saslStart db mech payload) { Server := desc, Kind := 0 }
    with ⟨c1, rdr, _ | e2⟩
  swap
  · left
    simp only [hR] at hL
    subst hL
    intro e he
    have he2 : e ∈ [Event.Start, Event.RoundTrip (Command.saslStart db mech payload)] := he
    simp only [List.mem_cons, List.mem_singleton, List.not_mem_nil, or_false] at he2
    rcases he2 with he2 | he2
    · exact Or.inl he2
    · exact Or.inr ⟨_, he2⟩
  simp only [hR] at hL
  rcases hU : rw.Unmarshal rdr saslResponse.zeroValue with ⟨saslResp, _ | e3⟩
  swap
  · left
    simp only [hU] at hL
    subst hL
    intro e he
    have he2 : e ∈ [Event.Start, Event.RoundTrip (Command.saslStart db mech payload)] := he
    simp only [List.mem_cons, List.mem_singleton, List.not_mem_nil, or_false] at he2
    rcases he2 with he2 | he2
    · exact Or.inl he2
    · exact Or.inr ⟨_, he2⟩
  right
  simp only [hU] at hL
  exact ⟨mech, _, s1, c1, saslResp, hL.symm⟩

/-- Where a reply sits in a trace that is known to start with reply-free events followed
by a reply: it is that reply, or it lies behind it. -/
theorem reply_split (A T pre post : List Event) (r1 resp : saslResponse)
    (hA : ∀ e ∈ A, ∀ r, e ≠ Event.Reply r)
    (h : A ++ Event.Reply r1 :: T = pre ++ Event.Reply resp :: post) :
    (resp = r1 ∧ post = T) ∨ ∃ mid, T = mid ++ Event.Reply resp :: post := by
  induction A generalizing pre with
  | nil =>
    cases pre with
    | nil =>
      simp only [List.nil_append, List.cons.injEq, Event.Reply.injEq] at h
      exact Or.inl ⟨h.1.symm, h.2.symm⟩
    | cons p pre1 =>
      simp only [List.nil_append, List.cons_append, List.cons.injEq] at h
      exact Or.inr ⟨pre1, h.2⟩
  | cons a A1 ih =>
    cases pre with
    | nil =>
      simp only [List.nil_append, List.cons_append, List.cons.injEq] at h
      exact absurd h.1 (hA a (List.mem_cons_self _ _) resp)
    | cons p pre1 =>
      simp only [List.cons_append, List.cons.injEq] at h
      exact ih pre1 (fun e he => hA e (List.mem_cons_of_mem _ he)) h.2

/-- In the loop, a reply with a nonzero code is the last event, and the loop has returned
an error. -/
theorem loop_bad_reply (client : SaslClient σ) (rw : ReadWriter χ) (db mech : String)
    (ssdesc : SelectedServer) (cid : Int) (fuel : Nat) (s : σ) (c : χ)
    (saslResp : saslResponse) (err : Option Err) (pre post : List Event)
    (resp : saslResponse)
    (htr : (loop client rw db mech ssdesc cid fuel s c saslResp err).trace =
      pre ++ Event.Reply resp :: post)
    (hbad : resp.Code ≠ 0) :
    (∃ e, (loop client rw db mech ssdesc cid fuel s c saslResp err).status =
        Status.returned (some e)) ∧ post = [] := by
  induction fuel generalizing s c saslResp err pre with
  | zero =>
    rcases loop_step client rw db mech ssdesc cid 0 s c saslResp err with
      ⟨_, heq⟩ | ⟨_, hall⟩ | ⟨_, _, _, _, _, _, f, hf, _, _⟩
    · rw [heq] at htr
      simp at htr
    · have hmem : Event.Reply resp ∈
          (loop client rw db mech ssdesc cid 0 s c saslResp err).trace := by
        rw [htr]; simp
      rcases hall _ hmem with ⟨_, h⟩ | ⟨_, h⟩ | ⟨_, h⟩ <;> cases h
    · omega
  | succ n ih =>
    rcases loop_step client rw db mech ssdesc cid (n + 1) s c saslResp err with
      ⟨_, heq⟩ | ⟨_, hall⟩ | ⟨_, evs, cmd, s1, c1, r1, f, hf, hevs, heq⟩
    · rw [heq] at htr
      simp at htr
    · have hmem : Event.Reply resp ∈
          (loop client rw db mech ssdesc cid (n + 1) s c saslResp err).trace := by
        rw [htr]; simp
      rcases hall _ hmem with ⟨_, h⟩ | ⟨_, h⟩ | ⟨_, h⟩ <;> cases h
    · have hfn : f = n := by omega
      subst hfn
      rw [heq] at htr ⊢
      have htr2 : (evs ++ [Event.RoundTrip cmd]) ++ Event.Reply r1 ::
          (loop client rw db mech ssdesc cid f s1 c1 r1 none).trace =
          pre ++ Event.Reply resp :: post := by
        rw [← htr]
        simp [Outcome.after]
      have hA : ∀ e ∈ evs ++ [Event.RoundTrip cmd], ∀ r, e ≠ Event.Reply r := by
        intro e he r hr
        subst hr
        rw [List.mem_append, List.mem_singleton] at he
        rcases he with he | he
        · rcases hevs _ he with ⟨_, h⟩ | ⟨_, h⟩ <;> cases h
        · cases he
      rcases reply_split _ _ _ _ _ _ hA htr2 with ⟨hr, hp⟩ | ⟨mid, hmid⟩
      · subst hr
        rw [loop_code_ne client rw db mech ssdesc cid f s1 c1 resp none hbad] at hp ⊢
        exact ⟨⟨_, rfl⟩, hp⟩
      · exact ih s1 c1 r1 none mid hmid

/-- No event of the loop is a call of `Close`. -/
theorem loop_noClose (client : SaslClient σ) (rw : ReadWriter χ) (db mech : String)
    (ssdesc : SelectedServer) (cid : Int) (fuel : Nat) (s : σ) (c : χ)
    (saslResp : saslResponse) (err : Option Err) :
    ∀ e ∈ (loop client rw db mech ssdesc cid fuel s c saslResp err).trace,
      e.isClose = false := by
  induction fuel generalizing s c saslResp err with
  | zero =>
    rcases loop_step client rw db mech ssdesc cid 0 s c saslResp err with
      ⟨_, heq⟩ | ⟨_, hall⟩ | ⟨_, _, _, _, _, _, f, hf, _, _⟩
    · rw [heq]; simp
    · intro e he
      rcases hall e he with ⟨_, h⟩ | ⟨_, h⟩ | ⟨_, h⟩ <;> subst h <;> rfl
    · omega
  | succ n ih =>
    rcases loop_step client rw db mech ssdesc cid (n + 1) s c saslResp err with
      ⟨_, heq⟩ | ⟨_, hall⟩ | ⟨_, evs, cmd, s1, c1, r1, f, hf, hevs, heq⟩
    · rw [heq]; simp
    · intro e he
      rcases hall e he with ⟨_, h⟩ | ⟨_, h⟩ | ⟨_, h⟩ <;> subst h <;> rfl
    · have hfn : f = n := by omega
      subst hfn
      rw [heq]
      intro e he
      simp only [Outcome.after, List.mem_append, List.mem_cons, List.mem_singleton,
        List.not_mem_nil, or_false] at he
      rcases he with (he | he | he) | he
      · rcases hevs e he with ⟨_, h⟩ | ⟨_, h⟩ <;> subst h <;> rfl
      · subst he; rfl
      · subst he; rfl
      · exact ih s1 c1 r1 none e he

/-- Before the deferred `Close` runs, a reply with a nonzero code is the last event, and
the conversation has returned an error. -/
theorem conversation_bad_reply (client : SaslClient σ) (rw : ReadWriter χ) (db : String)
    (desc : Server) (fuel : Nat) (s : σ) (c : χ) (pre post : List Event)
    (resp : saslResponse)
    (htr : (conversation client rw db desc fuel s c).trace = pre ++ Event.Reply resp :: post)
    (hbad : resp.Code ≠ 0) :
    (∃ e, (conversation client rw db desc fuel s c).status = Status.returned (some e)) ∧
      post = [] := by
  rcases conversation_step client rw db desc fuel s c with
    hall | ⟨mech, cmd, s1, c1, r0, heq⟩
  · have hmem : Event.Reply resp ∈ (conversation client rw db desc fuel s c).trace := by
      rw [htr]; simp
    rcases hall _ hmem with h | ⟨_, h⟩ <;> cases h
  · rw [heq] at htr ⊢
    have htr2 : [Event.Start, Event.RoundTrip cmd] ++ Event.Reply r0 ::
        (loop client rw db mech { Server := desc, Kind := 0 } r0.ConversationID fuel
          s1 c1 r0 none).trace = pre ++ Event.Reply resp :: post := by
      rw [← htr]
      simp [Outcome.after]
    have hA : ∀ e ∈ [Event.Start, Event.RoundTrip cmd], ∀ r, e ≠ Event.Reply r := by
      intro e he r hr
      subst hr
      simp at he
    rcases reply_split _ _ _ _ _ _ hA htr2 with ⟨hr, hp⟩ | ⟨mid, hmid⟩
    · subst hr
      rw [loop_code_ne client rw db mech _ _ fuel s1 c1 resp none hbad] at hp ⊢
      exact ⟨⟨_, rfl⟩, hp⟩
    · exact loop_bad_reply client rw db mech _ _ fuel s1 c1 r0 none mid post resp hmid hbad

/-- No event of the conversation before the deferred call is a call of `Close`. -/
theorem conversation_noClose (client : SaslClient σ) (rw : ReadWriter χ) (db : String)
    (desc : Server) (fuel : Nat) (s : σ) (c : χ) :
    ∀ e ∈ (conversation client rw db desc fuel s c).trace, e.isClose = false := by
  rcases conversation_step client rw db desc fuel s c with
    hall | ⟨mech, cmd, s1, c1, r0, heq⟩
  · intro e he
    rcases hall e he with h | ⟨_, h⟩ <;> subst h <;> rfl
  · rw [heq]
    intro e he
    simp only [Outcome.after, List.mem_append, List.mem_cons, List.mem_singleton,
      List.not_mem_nil, or_false] at he
    rcases he with (he | he | he) | he
    · subst he; rfl
    · subst he; rfl
    · subst he; rfl
    · exact loop_noClose client rw db mech _ _ fuel s1 c1 r0 none e he

/-- The deferred call does not change how the run ended. -/
theorem runDeferred_status (client : SaslClient σ) (o : Outcome σ χ) :
    (runDeferred client o).status = o.status := by
  unfold runDeferred
  split <;> rfl

/-- The trace after the deferred call: one more event, `Close`, exactly when the run
returned and the client is a closer. -/
theorem runDeferred_trace (client : SaslClient σ) (o : Outcome σ χ) :
    (runDeferred client o).trace =
      o.trace ++ (if o.status ≠ Status.outOfFuel ∧ client.Close.isSome then [Event.Close]
        else []) := by
  unfold runDeferred
  split
  · rename_i h1 h2
    simp [h1, h2]
  · rename_i h
    cases hs : o.status with
    | outOfFuel => simp
    | returned e =>
      cases hc : client.Close with
      | none => simp
      | some cl => exact absurd hc (h e cl hs)

/-- A trace that ends in `Close` and is cut at a reply: the part after the reply ends in
that `Close`. -/
theorem close_last_split (tr pre post : List Event) (resp : saslResponse)
    (h : tr ++ [Event.Close] = pre ++ Event.Reply resp :: post) :
    ∃ mid, post = mid ++ [Event.Close] ∧ tr = pre ++ Event.Reply resp :: mid := by
  rcases List.eq_nil_or_concat post with hp | ⟨mid, x, hp⟩
  · subst hp
    have h2 : tr ++ [Event.Close] = pre ++ [Event.Reply resp] := h
    have h3 := List.append_inj' h2 rfl
    simp at h3
  · subst hp
    have h2 : tr ++ [Event.Close] = (pre ++ Event.Reply resp :: mid) ++ [x] := by
      rw [h]; simp
    have h3 := List.append_inj' h2 rfl
    simp only [List.cons.injEq, and_true] at h3
    exact ⟨mid, by rw [← h3.2]; simp, h3.1⟩

/-- C3: in every run of `ConductSaslConversation`, whatever the bound on the number of
commands, a reply (to the start command or to a continue command) that decodes to
`code != 0` ends the run: the call has returned a non-nil error, and the only event after
that reply is the deferred `Close` of a closer, so no further command is sent and `Next`
is not called again. -/
theorem ConductSaslConversation_code_error (defaultAuthDB : String) (fuel : Nat)
    (desc : Server) (rw : ReadWriter χ) (db : String) (client : SaslClient σ) (s : σ) (c : χ)
    (pre post : List Event) (resp : saslResponse)
    (htr : (ConductSaslConversation defaultAuthDB fuel desc rw db client s c).trace =
      pre ++ Event.Reply resp :: post)
    (hbad : resp.Code ≠ 0) :
    (∃ e, (ConductSaslConversation defaultAuthDB fuel desc rw db client s c).status =
        Status.returned (some e)) ∧
      post = (if client.Close.isSome then [Event.Close] else []) ∧
      roundTrips post = 0 ∧ nexts post = 0 := by
  have hpost : ∀ p : List Event, p = (if client.Close.isSome then [Event.Close] else []) →
      roundTrips p = 0 ∧ nexts p = 0 := by
    intro p hp
    subst hp
    split <;> simp [roundTrips, nexts, Event.isRoundTrip, Event.isNext]
  unfold ConductSaslConversation at htr ⊢
  by_cases harb : desc.Kind = ServerKind.RSArbiter
  · simp [harb] at htr
  simp only [harb, if_false] at htr ⊢
  rw [runDeferred_status]
  rw [runDeferred_trace] at htr
  generalize hdb : (if db = "" then defaultAuthDB else db) = db1 at htr ⊢
  by_cases hcl : (conversation client rw db1 desc fuel s c).status ≠ Status.outOfFuel ∧
      client.Close.isSome
  · rw [if_pos hcl] at htr
    obtain ⟨mid, hmid, htr2⟩ := close_last_split _ _ _ _ htr
    obtain ⟨hst, hnil⟩ := conversation_bad_reply client rw db1 desc fuel s c pre mid resp
      htr2 hbad
    subst hnil
    have hp : post = (if client.Close.isSome then [Event.Close] else []) := by
      rw [hmid, if_pos hcl.2]; rfl
    exact ⟨hst, hp, hpost post hp⟩
  · rw [if_neg hcl, List.append_nil] at htr
    obtain ⟨hst, hnil⟩ := conversation_bad_reply client rw db1 desc fuel s c pre post resp
      htr hbad
    have hnone : client.Close.isSome = false := by
      rcases hst with ⟨e, he⟩
      cases hc : client.Close.isSome with
      | false => rfl
      | true => exact absurd ⟨by rw [he]; simp, hc⟩ hcl
    have hp : post = (if client.Close.isSome then [Event.Close] else []) := by
      rw [hnil, hnone]; rfl
    exact ⟨hst, hp, hpost post hp⟩

/-- C3, evaluated: the scripted server answers the first continue command with code 18;
the run stops there with an error, and only the deferred `Close` follows. -/
theorem ConductSaslConversation_code_error_witness :
    (ConductSaslConversation "admin" 5 (sample.desc ServerKind.RSPrimary)
        (sample.server 9 1) "" (sample.client 5 true) 0 0).status =
      Status.returned (some (Error.newError none "PLAIN")) ∧
    (ConductSaslConversation "admin" 5 (sample.desc ServerKind.RSPrimary)
        (sample.server 9 1) "" (sample.client 5 true) 0 0).trace =
      [Event.Start, Event.RoundTrip (Command.saslStart "admin" "PLAIN" [1]),
        Event.Reply { ConversationID := 7, Code := 0, Done := false, Payload := [0] },
        Event.Next [0], Event.RoundTrip (Command.saslContinue "admin" 7 [0, 0])] ++
      Event.Reply { ConversationID := 7, Code := 18, Done := false, Payload := [1] } ::
        [Event.Close] ∧
    roundTrips [Event.Close] = 0 :=
  have htr : (ConductSaslConversation "admin" 5 (sample.desc ServerKind.RSPrimary)
        (sample.server 9 1) "" (sample.client 5 true) 0 0).trace =
      [Event.Start, Event.RoundTrip (Command.saslStart "admin" "PLAIN" [1]),
        Event.Reply { ConversationID := 7, Code := 0, Done := false, Payload := [0] },
        Event.Next [0], Event.RoundTrip (Command.saslContinue "admin" 7 [0, 0])] ++
      Event.Reply { ConversationID := 7, Code := 18, Done := false, Payload := [1] } ::
        [Event.Close] := by decide
  have h := ConductSaslConversation_code_error "admin" 5 (sample.desc ServerKind.RSPrimary)
    (sample.server 9 1) "" (sample.client 5 true) 0 0 _ _ _ htr (by decide)
  ⟨by decide, htr, h.2.2.1⟩

/-- A reply with code 0 and `done`, held while the client is completed, makes the loop
return success after the one call of `Completed`. -/
theorem loop_done (client : SaslClient σ) (rw : ReadWriter χ) (db mech : String)
    (ssdesc : SelectedServer) (cid : Int) (fuel : Nat) (s : σ) (c : χ)
    (saslResp : saslResponse) (err : Option Err) (hcode : saslResp.Code = 0)
    (hdone : saslResp.Done = true) (hcomp : client.Completed s = true) :
    loop client rw db mech ssdesc cid fuel s c saslResp err =
      { status := Status.returned none, trace := [Event.Completed true],
        client := s, conn := c } := by
  unfold loop
  simp [hcode, doneAndCompleted, hdone, hcomp]

/-- C2: for every server description with `Kind == RSArbiter`, every database name, every
provider and every channel, `ConductSaslConversation` returns success (nil) with no
event at all: no command is sent, and neither the client nor the connection changes. -/
theorem ConductSaslConversation_arbiter (defaultAuthDB : String) (fuel : Nat)
    (desc : Server) (rw : ReadWriter χ) (db : String) (client : SaslClient σ) (s : σ) (c : χ)
    (harb : desc.Kind = ServerKind.RSArbiter) :
    ConductSaslConversation defaultAuthDB fuel desc rw db client s c =
        { status := Status.returned none, trace := [], client := s, conn := c } ∧
      roundTrips (ConductSaslConversation defaultAuthDB fuel desc rw db client s c).trace
        = 0 := by
  simp [ConductSaslConversation, harb, roundTrips]

/-- C2, evaluated on an arbiter description with the scripted client and server. -/
theorem ConductSaslConversation_arbiter_witness :
    (sample.desc ServerKind.RSArbiter).Kind = ServerKind.RSArbiter ∧
      ConductSaslConversation "admin" 5 (sample.desc ServerKind.RSArbiter)
          (sample.server 0 99) "" (sample.client 1 true) 0 0 =
        { status := Status.returned none, trace := [], client := 0, conn := 0 } :=
  ⟨by decide,
    (ConductSaslConversation_arbiter "admin" 5 (sample.desc ServerKind.RSArbiter)
      (sample.server 0 99) "" (sample.client 1 true) 0 0 (by decide)).1⟩

/-- C5: on a non-arbiter server, if `Start` succeeds, the client is completed right after
`Start`, and the reply to the start command decodes to `done = true` and `code = 0`,
then `ConductSaslConversation` returns success after exactly one round trip: the events
are `Start`, the `saslStart` command, its reply, one call of `Completed` and, for a
closer, the deferred `Close`; no `saslContinue` is sent and `Next` is never called. -/
theorem ConductSaslConversation_one_round_trip (defaultAuthDB : String) (fuel : Nat)
    (desc : Server) (rw : ReadWriter χ) (db : String) (client : SaslClient σ) (s s1 : σ)
    (c c1 : χ) (mech : String) (payload rdr : Bytes) (saslResp : saslResponse)
    (hkind : desc.Kind ≠ ServerKind.RSArbiter)
    (hstart : client.Start s = (s1, mech, payload, none))
    (hcomp : client.Completed s1 = true)
    (hrt : rw.RoundTrip c
        (Command.saslStart (if db = "" then defaultAuthDB else db) mech payload)
        { Server := desc, Kind := 0 } = (c1, rdr, none))
    (hdec : rw.Unmarshal rdr saslResponse.zeroValue = (saslResp, none))
    (hdone : saslResp.Done = true) (hcode : saslResp.Code = 0) :
    (ConductSaslConversation defaultAuthDB fuel desc rw db client s c).status =
        Status.returned none ∧
      (ConductSaslConversation defaultAuthDB fuel desc rw db client s c).trace =
        [Event.Start,
          Event.RoundTrip
            (Command.saslStart (if db = "" then defaultAuthDB else db) mech payload),
          Event.Reply saslResp, Event.Completed true] ++
          (if client.Close.isSome then [Event.Close] else []) ∧
      roundTrips (ConductSaslConversation defaultAuthDB fuel desc rw db client s c).trace
        = 1 ∧
      continues (ConductSaslConversation defaultAuthDB fuel desc rw db client s c).trace
        = 0 ∧
      nexts (ConductSaslConversation defaultAuthDB fuel desc rw db client s c).trace = 0 := by
  have hrun : ConductSaslConversation defaultAuthDB fuel desc rw db client s c =
      runDeferred client
        { status := Status.returned none,
          trace := [Event.Start,
            Event.RoundTrip
              (Command.saslStart (if db = "" then defaultAuthDB else db) mech payload),
            Event.Reply saslResp, Event.Completed true],
          client := s1, conn := c1 } := by
    simp only [ConductSaslConversation, hkind, if_false, conversation, hstart, hrt, hdec]
    rw [loop_done client rw _ mech _ _ fuel s1 c1 saslResp none hcode hdone hcomp]
    rfl
  rw [hrun]
  cases hcl : client.Close <;>
    simp [runDeferred, hcl, roundTrips, continues, nexts, Event.isRoundTrip,
      Event.isContinue, Event.isNext, Command.isContinue]

/-- C5, evaluated: a client that is completed from the start and a server that reports
`done` in its first reply. -/
theorem ConductSaslConversation_one_round_trip_witness :
    (ConductSaslConversation "admin" 5 (sample.desc ServerKind.RSPrimary)
        (sample.server 0 99) "" (sample.client 0 true) 0 0).status = Status.returned none ∧
      roundTrips (ConductSaslConversation "admin" 5 (sample.desc ServerKind.RSPrimary)
        (sample.server 0 99) "" (sample.client 0 true) 0 0).trace = 1 :=
  have h := ConductSaslConversation_one_round_trip "admin" 5
    (sample.desc ServerKind.RSPrimary) (sample.server 0 99) "" (sample.client 0 true) 0 0 0 1
    "PLAIN" [1] [7, 0, 1, 0]
    { ConversationID := 7, Code := 0, Done := true, Payload := [0] }
    (by decide) rfl rfl rfl rfl rfl rfl
  ⟨h.1, h.2.2.1⟩

/-- The number of `Close` events of a run: none before the deferred call, which adds one
exactly when the run returned and the client is a closer. -/
theorem closes_runDeferred_conversation (client : SaslClient σ) (rw : ReadWriter χ)
    (db : String) (desc : Server) (fuel : Nat) (s : σ) (c : χ) :
    closes (runDeferred client (conversation client rw db desc fuel s c)).trace =
      if (conversation client rw db desc fuel s c).status ≠ Status.outOfFuel ∧
        client.Close.isSome then 1 else 0 := by
  have h0 : (conversation client rw db desc fuel s c).trace.filter Event.isClose = [] := by
    rw [List.filter_eq_nil_iff]
    intro e he
    simp [conversation_noClose client rw db desc fuel s c e he]
  rw [runDeferred_trace]
  unfold closes
  rw [List.filter_append, h0]
  split <;> simp [Event.isClose]

/-- C4 as stated fails on the arbiter short-circuit: the scripted client is a closer, the
call on an arbiter description returns success, and `Close` is not invoked. -/
theorem ConductSaslConversation_close_counterexample :
    (sample.client 1 true).Close.isSome = true ∧
      (ConductSaslConversation "admin" 5 (sample.desc ServerKind.RSArbiter)
        (sample.server 0 99) "" (sample.client 1 true) 0 0).status = Status.returned none ∧
      closes (ConductSaslConversation "admin" 5 (sample.desc ServerKind.RSArbiter)
        (sample.server 0 99) "" (sample.client 1 true) 0 0).trace = 0 := by
  decide

/-- C4, amended: for every call of `ConductSaslConversation` whose provider exposes
`Close`, on a server that is not an arbiter `Close` is invoked exactly once on every exit
path, success or error, as the last action of the call, and not at all while the loop is
still running; on the arbiter short-circuit the call returns success and `Close` is not
invoked. -/
theorem ConductSaslConversation_close (defaultAuthDB : String) (fuel : Nat)
    (desc : Server) (rw : ReadWriter χ) (db : String) (client : SaslClient σ) (s : σ) (c : χ)
    (close : σ → σ) (hclose : client.Close = some close) :
    (desc.Kind ≠ ServerKind.RSArbiter →
      (∀ err, (ConductSaslConversation defaultAuthDB fuel desc rw db client s c).status =
          Status.returned err →
        closes (ConductSaslConversation defaultAuthDB fuel desc rw db client s c).trace = 1 ∧
        (ConductSaslConversation defaultAuthDB fuel desc rw db client s c).trace.getLast? =
          some Event.Close) ∧
      ((ConductSaslConversation defaultAuthDB fuel desc rw db client s c).status =
          Status.outOfFuel →
        closes (ConductSaslConversation defaultAuthDB fuel desc rw db client s c).trace
          = 0)) ∧
    (desc.Kind = ServerKind.RSArbiter →
      (ConductSaslConversation defaultAuthDB fuel desc rw db client s c).status =
          Status.returned none ∧
        closes (ConductSaslConversation defaultAuthDB fuel desc rw db client s c).trace
          = 0) := by
  refine ⟨fun hkind => ?_, fun harb => ?_⟩
  · unfold ConductSaslConversation
    simp only [hkind, if_false]
    rw [runDeferred_status, closes_runDeferred_conversation, runDeferred_trace]
    refine ⟨fun err hst => ?_, fun hst => ?_⟩
    · have hc : (conversation client rw (if db = "" then defaultAuthDB else db) desc fuel
          s c).status ≠ Status.outOfFuel ∧ client.Close.isSome := by
        rw [hst, hclose]; simp
      rw [if_pos hc, if_pos hc]
      simp
    · have hc : ¬ ((conversation client rw (if db = "" then defaultAuthDB else db) desc fuel
          s c).status ≠ Status.outOfFuel ∧ client.Close.isSome) := by
        rw [hst]; simp
      rw [if_neg hc]
  · simp [ConductSaslConversation, harb, closes]

/-- C4 amended, evaluated: a closer on a primary; the run `Start`, one command, reply,
`Completed`, `Next`, `Completed` returns success and ends with the one `Close`. -/
theorem ConductSaslConversation_close_witness :
    (sample.client 1 true).Close = some (fun s => s + 100) ∧
      closes (ConductSaslConversation "admin" 5 (sample.desc ServerKind.RSPrimary)
        (sample.server 0 99) "" (sample.client 1 true) 0 0).trace = 1 ∧
      (ConductSaslConversation "admin" 5 (sample.desc ServerKind.RSPrimary)
        (sample.server 0 99) "" (sample.client 1 true) 0 0).trace.getLast? =
          some Event.Close :=
  ⟨rfl,
    ((ConductSaslConversation_close "admin" 5 (sample.desc ServerKind.RSPrimary)
      (sample.server 0 99) "" (sample.client 1 true) 0 0 (fun s => s + 100) rfl).1
        (by decide)).1 none (by decide)⟩

/-- What a successful turn says about the three calls it is made of. -/
theorem turn_some (client : SaslClient σ) (rw : ReadWriter χ) (db : String)
    (ssdesc : SelectedServer) (cid : Int) (x x1 : Exchange σ χ)
    (h : turn client rw db ssdesc cid x = some x1) :
    ∃ payload rdr,
      client.Next x.client x.saslResp.Payload = (x1.client, payload, none) ∧
      rw.RoundTrip x.conn (Command.saslContinue db (toInt32 cid) payload) ssdesc =
        (x1.conn, rdr, none) ∧
      rw.Unmarshal rdr x.saslResp = (x1.saslResp, none) := by
  unfold turn at h
  rcases hN : client.Next x.client x.saslResp.Payload with ⟨s1, payload, _ | e1⟩
  swap
  · simp [hN] at h
  simp only [hN] at h
  rcases hR : rw.RoundTrip x.conn (Command.saslContinue db (toInt32 cid) payload) ssdesc with
    ⟨c1, rdr, _ | e2⟩
  swap
  · simp [hR] at h
  simp only [hR] at h
  rcases hU : rw.Unmarshal rdr x.saslResp with ⟨r1, _ | e3⟩
  swap
  · simp [hU] at h
  simp only [hU, Option.some.injEq] at h
  subst h
  exact ⟨payload, rdr, rfl, hR, hU⟩

/-- The iteration of the loop that goes all the way to the next one: both exit tests fail,
`Next`, the `saslContinue` command and the decoding succeed. -/
theorem loop_continue (client : SaslClient σ) (rw : ReadWriter χ) (db mech : String)
    (ssdesc : SelectedServer) (cid : Int) (f : Nat) (s s1 : σ) (c c1 : χ)
    (saslResp saslResp1 : saslResponse) (err : Option Err) (payload rdr : Bytes)
    (hcode : saslResp.Code = 0)
    (h1 : (doneAndCompleted client saslResp s).1 = false)
    (hN : client.Next s saslResp.Payload = (s1, payload, none))
    (h2 : (doneAndCompleted client saslResp s1).1 = false)
    (hR : rw.RoundTrip c (Command.saslContinue db (toInt32 cid) payload) ssdesc =
      (c1, rdr, none))
    (hU : rw.Unmarshal rdr saslResp = (saslResp1, none)) :
    loop client rw db mech ssdesc cid (f + 1) s c saslResp err =
      (loop client rw db mech ssdesc cid f s1 c1 saslResp1 none).after
        ((doneAndCompleted client saslResp s).2 ++ [Event.Next saslResp.Payload] ++
          (doneAndCompleted client saslResp s1).2 ++
          [Event.RoundTrip (Command.saslContinue db (toInt32 cid) payload),
            Event.Reply saslResp1]) := by
  conv_lhs => unfold loop
  simp [hcode, h1, hN, h2, hR, hU]

/-- The exit test holds no command and no call of `Next`. -/
theorem doneAndCompleted_counts (client : SaslClient σ) (saslResp : saslResponse) (s : σ) :
    continues (doneAndCompleted client saslResp s).2 = 0 ∧
      nexts (doneAndCompleted client saslResp s).2 = 0 := by
  unfold doneAndCompleted continues nexts
  split <;> simp [Event.isContinue, Event.isNext]

/-- The exit test fails when the client is not completed. -/
theorem doneAndCompleted_false (client : SaslClient σ) (saslResp : saslResponse) (s : σ)
    (h : saslResp.Done = false ∨ client.Completed s = false) :
    (doneAndCompleted client saslResp s).1 = false := by
  unfold doneAndCompleted
  rcases h with h | h
  · simp [h]
  · split <;> simp [h]

/-- The loop along a conversation of `N` further exchanges: if the `N` turns from `x` go
through, every reply on the way has code 0, the client is not completed before the
`N`-th call of `Next` and completed after it, the reply held at the `N`-th call of `Next`
has `done = false` and the last reply has `done = true`, then the loop returns success
after exactly `N` `saslContinue` commands and `N` calls of `Next`. -/
theorem loop_turns (client : SaslClient σ) (rw : ReadWriter χ) (db mech : String)
    (ssdesc : SelectedServer) (cid : Int) (N : Nat) :
    ∀ (fuel : Nat) (x xN : Exchange σ χ) (err : Option Err), N ≤ fuel →
      turns client rw db ssdesc cid N x = some xN →
      (∀ k ≤ N, ∀ y, turns client rw db ssdesc cid k x = some y → y.saslResp.Code = 0) →
      (∀ k < N, ∀ y, turns client rw db ssdesc cid k x = some y →
        client.Completed y.client = false) →
      client.Completed xN.client = true →
      xN.saslResp.Done = true →
      (∀ k, k + 1 = N → ∀ y, turns client rw db ssdesc cid k x = some y →
        y.saslResp.Done = false) →
      (loop client rw db mech ssdesc cid fuel x.client x.conn x.saslResp err).status =
          Status.returned none ∧
        continues (loop client rw db mech ssdesc cid fuel x.client x.conn x.saslResp err).trace
          = N ∧
        nexts (loop client rw db mech ssdesc cid fuel x.client x.conn x.saslResp err).trace
          = N := by
  induction N with
  | zero =>
    intro fuel x xN err _ hturns hcode _ hcomp hdone _
    simp only [turns, Option.some.injEq] at hturns
    subst hturns
    rw [loop_done client rw db mech ssdesc cid fuel x.client x.conn x.saslResp err
      (hcode 0 (Nat.le_refl 0) x rfl) hdone hcomp]
    simp [continues, nexts, Event.isContinue, Event.isNext]
  | succ n ih =>
    intro fuel x xN err hfuel hturns hcode hnot hcomp hdone hprev
    obtain ⟨f, hf⟩ : ∃ f, fuel = f + 1 := ⟨fuel - 1, by omega⟩
    subst hf
    simp only [turns] at hturns
    rcases hT : turn client rw db ssdesc cid x with _ | x1
    · simp [hT] at hturns
    simp only [hT, Option.some_bind] at hturns
    have hshift : ∀ k y, turns client rw db ssdesc cid k x1 = some y →
        turns client rw db ssdesc cid (k + 1) x = some y := by
      intro k y hk
      simp only [turns, hT, Option.some_bind]
      exact hk
    obtain ⟨payload, rdr, hN, hR, hU⟩ := turn_some client rw db ssdesc cid x x1 hT
    have hcode0 : x.saslResp.Code = 0 := hcode 0 (Nat.zero_le _) x rfl
    have hc1 : (doneAndCompleted client x.saslResp x.client).1 = false :=
      doneAndCompleted_false client _ _ (Or.inr (hnot 0 (Nat.succ_pos n) x rfl))
    have hc2 : (doneAndCompleted client x.saslResp x1.client).1 = false := by
      apply doneAndCompleted_false
      cases n with
      | zero => exact Or.inl (hprev 0 rfl x rfl)
      | succ m => exact Or.inr (hnot 1 (by omega) x1 (hshift 0 x1 rfl))
    rw [loop_continue client rw db mech ssdesc cid f x.client x1.client x.conn x1.conn
      x.saslResp x1.saslResp err payload rdr hcode0 hc1 hN hc2 hR hU]
    obtain ⟨hst, hco, hne⟩ := ih f x1 xN none (by omega) hturns
      (fun k hk y hy => hcode (k + 1) (by omega) y (hshift k y hy))
      (fun k hk y hy => hnot (k + 1) (by omega) y (hshift k y hy))
      hcomp hdone
      (fun k hk y hy => hprev (k + 1) (by omega) y (hshift k y hy))
    have d1 := doneAndCompleted_counts client x.saslResp x.client
    have d2 := doneAndCompleted_counts client x.saslResp x1.client
    simp only [continues, nexts] at hco hne d1 d2 ⊢
    refine ⟨hst, ?_, ?_⟩
    · simp only [Outcome.after, List.filter_append, List.length_append, hco, d1.1, d2.1]
      simp [Event.isContinue, Command.isContinue]
      omega
    · simp only [Outcome.after, List.filter_append, List.length_append, hne, d1.2, d2.2]
      simp [Event.isNext]
      omega

/-- The deferred `Close` is no command and no call of `Next`. -/
theorem continues_append_close (tr : List Event) (p : Prop) [Decidable p] :
    continues (tr ++ (if p then [Event.Close] else [])) = continues tr := by
  unfold continues
  split <;> simp [Event.isContinue]

/-- The deferred `Close` is no call of `Next`. -/
theorem nexts_append_close (tr : List Event) (p : Prop) [Decidable p] :
    nexts (tr ++ (if p then [Event.Close] else [])) = nexts tr := by
  unfold nexts
  split <;> simp [Event.isNext]

/-- C6 as stated fails: the scripted client is completed only after one call of `Next`
(`N = 1`), every reply has code 0 and `done = true`, nothing fails, and the run returns
success after one call of `Next` without sending any `saslContinue` command: the second
exit test, right after `Next`, ends the run on the reply to the start command. -/
theorem ConductSaslConversation_continues_counterexample :
    (sample.client 1 false).Completed 0 = false ∧
      (sample.client 1 false).Completed ((sample.client 1 false).Next 0 [0]).1 = true ∧
      turns (sample.client 1 false) (sample.server 0 99) "admin"
          { Server := sample.desc ServerKind.RSPrimary, Kind := 0 } 7 1
          { client := 0, conn := 1,
            saslResp := { ConversationID := 7, Code := 0, Done := true, Payload := [0] } } =
        some { client := 1, conn := 2,
               saslResp := { ConversationID := 7, Code := 0, Done := true, Payload := [1] } } ∧
      (ConductSaslConversation "admin" 5 (sample.desc ServerKind.RSPrimary)
        (sample.server 0 99) "" (sample.client 1 false) 0 0).status = Status.returned none ∧
      (ConductSaslConversation "admin" 5 (sample.desc ServerKind.RSPrimary)
        (sample.server 0 99) "" (sample.client 1 false) 0 0).trace =
        [Event.Start, Event.RoundTrip (Command.saslStart "admin" "PLAIN" [1]),
          Event.Reply { ConversationID := 7, Code := 0, Done := true, Payload := [0] },
          Event.Completed false, Event.Next [0], Event.Completed true] ∧
      nexts (ConductSaslConversation "admin" 5 (sample.desc ServerKind.RSPrimary)
        (sample.server 0 99) "" (sample.client 1 false) 0 0).trace = 1 ∧
      continues (ConductSaslConversation "admin" 5 (sample.desc ServerKind.RSPrimary)
        (sample.server 0 99) "" (sample.client 1 false) 0 0).trace = 0 := by
  decide

/-- C6, amended: for every `N`, on a non-arbiter server where `Start`, the start round
trip and the `N` exchanges that follow all succeed and every reply has code 0: if the
client is not completed after fewer than `N` calls of `Next` and completed after `N`, the
reply to the `N`-th `saslContinue` command has `done = true`, and the reply held when
`Next` is called for the `N`-th time has `done = false`, then the call (allowed at least
`N` commands) returns success after exactly `N` `saslContinue` commands and `N` calls of
`Next`. -/
theorem ConductSaslConversation_continues (defaultAuthDB : String) (fuel N : Nat)
    (desc : Server) (rw : ReadWriter χ) (db : String) (client : SaslClient σ) (s s1 : σ)
    (c c1 : χ) (mech : String) (payload rdr : Bytes) (saslResp : saslResponse)
    (xN : Exchange σ χ)
    (hkind : desc.Kind ≠ ServerKind.RSArbiter)
    (hfuel : N ≤ fuel)
    (hstart : client.Start s = (s1, mech, payload, none))
    (hrt : rw.RoundTrip c
        (Command.saslStart (if db = "" then defaultAuthDB else db) mech payload)
        { Server := desc, Kind := 0 } = (c1, rdr, none))
    (hdec : rw.Unmarshal rdr saslResponse.zeroValue = (saslResp, none))
    (hturns : turns client rw (if db = "" then defaultAuthDB else db)
        { Server := desc, Kind := 0 } saslResp.ConversationID N
        { client := s1, conn := c1, saslResp := saslResp } = some xN)
    (hcode : ∀ k ≤ N, ∀ y, turns client rw (if db = "" then defaultAuthDB else db)
        { Server := desc, Kind := 0 } saslResp.ConversationID k
        { client := s1, conn := c1, saslResp := saslResp } = some y → y.saslResp.Code = 0)
    (hnot : ∀ k < N, ∀ y, turns client rw (if db = "" then defaultAuthDB else db)
        { Server := desc, Kind := 0 } saslResp.ConversationID k
        { client := s1, conn := c1, saslResp := saslResp } = some y →
        client.Completed y.client = false)
    (hcomp : client.Completed xN.client = true)
    (hdone : xN.saslResp.Done = true)
    (hprev : ∀ k, k + 1 = N → ∀ y, turns client rw (if db = "" then defaultAuthDB else db)
        { Server := desc, Kind := 0 } saslResp.ConversationID k
        { client := s1, conn := c1, saslResp := saslResp } = some y →
        y.saslResp.Done = false) :
    (ConductSaslConversation defaultAuthDB fuel desc rw db client s c).status =
        Status.returned none ∧
      continues (ConductSaslConversation defaultAuthDB fuel desc rw db client s c).trace
        = N ∧
      nexts (ConductSaslConversation defaultAuthDB fuel desc rw db client s c).trace = N := by
  generalize hdb : (if db = "" then defaultAuthDB else db) = db1 at hrt hturns hcode hnot hprev
  obtain ⟨hst, hco, hne⟩ := loop_turns client rw db1 mech
    { Server := desc, Kind := 0 } saslResp.ConversationID N fuel
    { client := s1, conn := c1, saslResp := saslResp } xN none hfuel hturns hcode hnot hcomp
    hdone hprev
  have hrun : ConductSaslConversation defaultAuthDB fuel desc rw db client s c =
      runDeferred client
        ((loop client rw db1 mech { Server := desc, Kind := 0 } saslResp.ConversationID fuel
          s1 c1 saslResp none).after
          [Event.Start, Event.RoundTrip (Command.saslStart db1 mech payload),
            Event.Reply saslResp]) := by
    simp only [ConductSaslConversation, hkind, if_false, hdb, conversation, hstart, hrt, hdec]
  rw [hrun, runDeferred_status, runDeferred_trace]
  refine ⟨hst, ?_, ?_⟩
  · rw [continues_append_close]
    simp only [continues, Outcome.after, List.filter_append, List.length_append] at hco ⊢
    rw [hco]
    simp [Event.isContinue, Command.isContinue]
  · rw [nexts_append_close]
    simp only [nexts, Outcome.after, List.filter_append, List.length_append] at hne ⊢
    rw [hne]
    simp [Event.isNext]

/-- C6 amended, evaluated for `N = 2`: the scripted client needs two calls of `Next`, the
scripted server reports `done` from its third reply on, and the run sends exactly two
`saslContinue` commands. -/
theorem ConductSaslConversation_continues_witness :
    (ConductSaslConversation "admin" 5 (sample.desc ServerKind.RSPrimary)
        (sample.server 2 99) "" (sample.client 2 true) 0 0).status = Status.returned none ∧
      continues (ConductSaslConversation "admin" 5 (sample.desc ServerKind.RSPrimary)
        (sample.server 2 99) "" (sample.client 2 true) 0 0).trace = 2 ∧
      nexts (ConductSaslConversation "admin" 5 (sample.desc ServerKind.RSPrimary)
        (sample.server 2 99) "" (sample.client 2 true) 0 0).trace = 2 :=
  ConductSaslConversation_continues "admin" 5 2 (sample.desc ServerKind.RSPrimary)
    (sample.server 2 99) "" (sample.client 2 true) 0 0 0 1 "PLAIN" [1] [7, 0, 0, 0]
    { ConversationID := 7, Code := 0, Done := false, Payload := [0] }
    { client := 2, conn := 3,
      saslResp := { ConversationID := 7, Code := 0, Done := true, Payload := [2] } }
    (by decide) (by decide) rfl rfl rfl rfl
    (by
      intro k hk y hy
      interval_cases k <;> (obtain rfl := Option.some.inj hy; rfl))
    (by
      intro k hk y hy
      interval_cases k <;> (obtain rfl := Option.some.inj hy; rfl))
    rfl rfl
    (by
      intro k hk y hy
      obtain rfl : k = 1 := by omega
      obtain rfl := Option.some.inj hy
      rfl)

/-! ### Replaying a trace -/

/-- No position in the empty trace. -/
theorem AtEvery_nil (client : SaslClient σ) (rw : ReadWriter χ) (ssdesc : SelectedServer)
    (P : Vars σ χ → Event → List Event → Prop) (v : Vars σ χ) :
    AtEvery client rw ssdesc P v [] := by
  intro pre ev post h
  simp at h

/-- A property of every position, one event at a time. -/
theorem AtEvery_cons (client : SaslClient σ) (rw : ReadWriter χ) (ssdesc : SelectedServer)
    (P : Vars σ χ → Event → List Event → Prop) (v : Vars σ χ) (x : Event)
    (tr : List Event) :
    AtEvery client rw ssdesc P v (x :: tr) ↔
      P v x tr ∧ AtEvery client rw ssdesc P (replayStep client rw ssdesc v x) tr := by
  constructor
  · intro h
    refine ⟨h [] x tr rfl, ?_⟩
    intro pre ev post hp
    have := h (x :: pre) ev post (by rw [hp]; rfl)
    simpa [replay] using this
  · rintro ⟨h1, h2⟩ pre ev post hp
    cases pre with
    | nil =>
      simp only [List.nil_append, List.cons.injEq] at hp
      obtain ⟨rfl, rfl⟩ := hp
      exact h1
    | cons p pre1 =>
      simp only [List.cons_append, List.cons.injEq] at hp
      obtain ⟨rfl, rfl⟩ := hp
      have := h2 pre1 ev post rfl
      simpa [replay] using this

/-- Calls of `Completed` in front of a trace play no part in a property that holds of
every call of `Completed`. -/
theorem AtEvery_doneAndCompleted (client : SaslClient σ) (rw : ReadWriter χ)
    (ssdesc : SelectedServer) (P : Vars σ χ → Event → List Event → Prop)
    (hP : ∀ v b post, P v (Event.Completed b) post)
    (v : Vars σ χ) (saslResp : saslResponse) (s : σ) (tr : List Event) :
    AtEvery client rw ssdesc P v ((doneAndCompleted client saslResp s).2 ++ tr) ↔
      AtEvery client rw ssdesc P v tr := by
  unfold doneAndCompleted
  split
  · simp only [List.singleton_append, AtEvery_cons, replayStep, hP, true_and]
  · simp

/-! ### The loop and the part before it, case by case -/

/-- When the exit test holds, the reply has `done`, the client is completed, and the one
event is the call of `Completed` that returned true. -/
theorem doneAndCompleted_true (client : SaslClient σ) (saslResp : saslResponse) (s : σ)
    (h : (doneAndCompleted client saslResp s).1 = true) :
    saslResp.Done = true ∧ client.Completed s = true ∧
      (doneAndCompleted client saslResp s).2 = [Event.Completed true] := by
  unfold doneAndCompleted at h ⊢
  by_cases hd : saslResp.Done = true
  · simp only [hd, if_true] at h ⊢
    simp [h]
  · simp [hd] at h

/-- One iteration of the loop with everything it does, in eight cases: (1) nonzero code;
(2) first exit test holds; (3) `Next` fails; (4) second exit test holds; (5) the bound on
commands is reached; (6) the `saslContinue` round trip fails; (7) the reply does not
decode; (8) the reply is decoded and the loop goes round again. -/
theorem loop_cases (client : SaslClient σ) (rw : ReadWriter χ) (db mech : String)
    (ssdesc : SelectedServer) (cid : Int) (fuel : Nat) (s : σ) (c : χ)
    (r : saslResponse) (err : Option Err) :
    (r.Code ≠ 0 ∧
      loop client rw db mech ssdesc cid fuel s c r err =
        { status := Status.returned (some (Error.newError err mech)), trace := [],
          client := s, conn := c }) ∨
    (r.Code = 0 ∧ (doneAndCompleted client r s).1 = true ∧
      loop client rw db mech ssdesc cid fuel s c r err =
        { status := Status.returned none, trace := (doneAndCompleted client r s).2,
          client := s, conn := c }) ∨
    (r.Code = 0 ∧ (doneAndCompleted client r s).1 = false ∧
      ∃ s1 payload e, client.Next s r.Payload = (s1, payload, some e) ∧
        loop client rw db mech ssdesc cid fuel s c r err =
          { status := Status.returned (some (Error.newError (some e) mech)),
            trace := (doneAndCompleted client r s).2 ++ [Event.Next r.Payload],
            client := s1, conn := c }) ∨
    (r.Code = 0 ∧ (doneAndCompleted client r s).1 = false ∧
      ∃ s1 payload, client.Next s r.Payload = (s1, payload, none) ∧
        (doneAndCompleted client r s1).1 = true ∧
        loop client rw db mech ssdesc cid fuel s c r err =
          { status := Status.returned none,
            trace := (doneAndCompleted client r s).2 ++ [Event.Next r.Payload] ++
              (doneAndCompleted client r s1).2,
            client := s1, conn := c }) ∨
    (r.Code = 0 ∧ (doneAndCompleted client r s).1 = false ∧
      ∃ s1 payload, client.Next s r.Payload = (s1, payload, none) ∧
        (doneAndCompleted client r s1).1 = false ∧ fuel = 0 ∧
        loop client rw db mech ssdesc cid fuel s c r err =
          { status := Status.outOfFuel,
            trace := (doneAndCompleted client r s).2 ++ [Event.Next r.Payload] ++
              (doneAndCompleted client r s1).2,
            client := s1, conn := c }) ∨
    (r.Code = 0 ∧ (doneAndCompleted client r s).1 = false ∧
      ∃ s1 payload, client.Next s r.Payload = (s1, payload, none) ∧
        (doneAndCompleted client r s1).1 = false ∧
        ∃ f c1 rdr e, fuel = f + 1 ∧
          rw.RoundTrip c (Command.saslContinue db (toInt32 cid) payload) ssdesc =
            (c1, rdr, some e) ∧
          loop client rw db mech ssdesc cid fuel s c r err =
            { status := Status.returned (some (Error.newError (some e) mech)),
              trace := (doneAndCompleted client r s).2 ++ [Event.Next r.Payload] ++
                (doneAndCompleted client r s1).2 ++
                [Event.RoundTrip (Command.saslContinue db (toInt32 cid) payload)],
              client := s1, conn := c1 }) ∨
    (r.Code = 0 ∧ (doneAndCompleted client r s).1 = false ∧
      ∃ s1 payload, client.Next s r.Payload = (s1, payload, none) ∧
        (doneAndCompleted client r s1).1 = false ∧
        ∃ f c1 rdr r1 e, fuel = f + 1 ∧
          rw.RoundTrip c (Command.saslContinue db (toInt32 cid) payload) ssdesc =
            (c1, rdr, none) ∧
          rw.Unmarshal rdr r = (r1, some e) ∧
          loop client rw db mech ssdesc cid fuel s c r err =
            { status := Status.returned
                (some (Error.newAuthError "unmarshal error" (some e))),
              trace := (doneAndCompleted client r s).2 ++ [Event.Next r.Payload] ++
                (doneAndCompleted client r s1).2 ++
                [Event.RoundTrip (Command.saslContinue db (toInt32 cid) payload)],
              client := s1, conn := c1 }) ∨
    (r.Code = 0 ∧ (doneAndCompleted client r s).1 = false ∧
      ∃ s1 payload, client.Next s r.Payload = (s1, payload, none) ∧
        (doneAndCompleted client r s1).1 = false ∧
        ∃ f c1 rdr r1, fuel = f + 1 ∧
          rw.RoundTrip c (Command.saslContinue db (toInt32 cid) payload) ssdesc =
            (c1, rdr, none) ∧
          rw.Unmarshal rdr r = (r1, none) ∧
          loop client rw db mech ssdesc cid fuel s c r err =
            (loop client rw db mech ssdesc cid f s1 c1 r1 none).after
              ((doneAndCompleted client r s).2 ++ [Event.Next r.Payload] ++
                (doneAndCompleted client r s1).2 ++
                [Event.RoundTrip (Command.saslContinue db (toInt32 cid) payload),
                  Event.Reply r1])) := by
  by_cases hcode : r.Code = 0
  swap
  · exact Or.inl ⟨hcode, loop_code_ne client rw db mech ssdesc cid fuel s c r err hcode⟩
  right
  by_cases h1 : (doneAndCompleted client r s).1 = true
  · left
    refine ⟨hcode, h1, ?_⟩
    unfold loop
    simp only [hcode, ne_eq, not_true_eq_false, if_false, h1, if_true]
  right
  have h1f : (doneAndCompleted client r s).1 = false := by simpa using h1
  rcases hN : client.Next s r.Payload with ⟨s1, payload, _ | e1⟩
  swap
  · left
    refine ⟨hcode, h1f, s1, payload, e1, rfl, ?_⟩
    unfold loop
    simp only [hcode, ne_eq, not_true_eq_false, if_false, h1f, Bool.false_eq_true, hN]
  right
  by_cases h2 : (doneAndCompleted client r s1).1 = true
  · left
    refine ⟨hcode, h1f, s1, payload, rfl, h2, ?_⟩
    unfold loop
    simp only [hcode, ne_eq, not_true_eq_false, if_false, h1f, Bool.false_eq_true, hN, h2, if_true]
  right
  have h2f : (doneAndCompleted client r s1).1 = false := by simpa using h2
  cases fuel with
  | zero =>
    left
    refine ⟨hcode, h1f, s1, payload, rfl, h2f, rfl, ?_⟩
    unfold loop
    simp only [hcode, ne_eq, not_true_eq_false, if_false, h1f, Bool.false_eq_true, hN, h2f]
  | succ f =>
    right
    rcases hR : rw.RoundTrip c (Command.saslContinue db (toInt32 cid) payload) ssdesc with
      ⟨c1, rdr, _ | e2⟩
    swap
    · left
      refine ⟨hcode, h1f, s1, payload, rfl, h2f, f, c1, rdr, e2, rfl, hR, ?_⟩
      conv_lhs => unfold loop
      simp only [hcode, ne_eq, not_true_eq_false, if_false, h1f, Bool.false_eq_true, hN, h2f, hR]
    right
    rcases hU : rw.Unmarshal rdr r with ⟨r1, _ | e3⟩
    swap
    · left
      refine ⟨hcode, h1f, s1, payload, rfl, h2f, f, c1, rdr, r1, e3, rfl, hR, hU, ?_⟩
      conv_lhs => unfold loop
      simp only [hcode, ne_eq, not_true_eq_false, if_false, h1f, Bool.false_eq_true, hN, h2f, hR, hU]
    right
    refine ⟨hcode, h1f, s1, payload, rfl, h2f, f, c1, rdr, r1, rfl, hR, hU, ?_⟩
    conv_lhs => unfold loop
    simp only [hcode, ne_eq, not_true_eq_false, if_false, h1f, Bool.false_eq_true, hN, h2f, hR, hU]

/-- The part before the loop with everything it does, in four cases: `Start` fails; the
`saslStart` round trip fails; the reply does not decode; the loop is entered. -/
theorem conversation_cases (client : SaslClient σ) (rw : ReadWriter χ) (db : String)
    (desc : Server) (fuel : Nat) (s : σ) (c : χ) :
    (∃ s1 mech payload e, client.Start s = (s1, mech, payload, some e) ∧
      conversation client rw db desc fuel s c =
        { status := Status.returned (some (Error.newError (some e) mech)),
          trace := [Event.Start], client := s1, conn := c }) ∨
    (∃ s1 mech payload, client.Start s = (s1, mech, payload, none) ∧
      ∃ c1 rdr e, rw.RoundTrip c (Command.saslStart db mech payload)
          { Server := desc, Kind := 0 } = (c1, rdr, some e) ∧
        conversation client rw db desc fuel s c =
          { status := Status.returned (some (Error.newError (some e) mech)),
            trace := [Event.Start, Event.RoundTrip (Command.saslStart db mech payload)],
            client := s1, conn := c1 }) ∨
    (∃ s1 mech payload, client.Start s = (s1, mech, payload, none) ∧
      ∃ c1 rdr r0 e, rw.RoundTrip c (Command.saslStart db mech payload)
          { Server := desc, Kind := 0 } = (c1, rdr, none) ∧
        rw.Unmarshal rdr saslResponse.zeroValue = (r0, some e) ∧
        conversation client rw db desc fuel s c =
          { status := Status.returned
              (some (Error.newAuthError "unmarshall error" (some e))),
            trace := [Event.Start, Event.RoundTrip (Command.saslStart db mech payload)],
            client := s1, conn := c1 }) ∨
    (∃ s1 mech payload, client.Start s = (s1, mech, payload, none) ∧
      ∃ c1 rdr r0, rw.RoundTrip c (Command.saslStart db mech payload)
          { Server := desc, Kind := 0 } = (c1, rdr, none) ∧
        rw.Unmarshal rdr saslResponse.zeroValue = (r0, none) ∧
        conversation client rw db desc fuel s c =
          (loop client rw db mech { Server := desc, Kind := 0 } r0.ConversationID fuel
            s1 c1 r0 none).after
            [Event.Start, Event.RoundTrip (Command.saslStart db mech payload),
              Event.Reply r0]) := by
  rcases hS : client.Start s with ⟨s1, mech, payload, _ | e1⟩
  swap
  · left
    refine ⟨s1, mech, payload, e1, rfl, ?_⟩
    unfold conversation
    simp only [hS]
  right
  rcases hR : rw.RoundTrip c (Command.saslStart db mech payload)
    { Server := desc, Kind := 0 } with ⟨c1, rdr, _ | e2⟩
  swap
  · left
    refine ⟨s1, mech, payload, rfl, c1, rdr, e2, hR, ?_⟩
    unfold conversation
    simp only [hS, hR]
  right
  rcases hU : rw.Unmarshal rdr saslResponse.zeroValue with ⟨r0, _ | e3⟩
  swap
  · left
    refine ⟨s1, mech, payload, rfl, c1, rdr, r0, e3, hR, hU, ?_⟩
    unfold conversation
    simp only [hS, hR, hU]
  right
  refine ⟨s1, mech, payload, rfl, c1, rdr, r0, hR, hU, ?_⟩
  unfold conversation
  simp only [hS, hR, hU]

/-! ### The first error ends the run -/

/-- In the loop, a call that fails is the last event, and the loop has returned the error
of that call wrapped by `newError`. -/
theorem loop_first_error (client : SaslClient σ) (rw : ReadWriter χ) (db mech : String)
    (ssdesc : SelectedServer) (cid : Int) (fuel : Nat) :
    ∀ (s : σ) (c : χ) (r : saslResponse) (err : Option Err) (v : Vars σ χ) (stat : Status),
      v.client = s → v.conn = c →
      stat = (loop client rw db mech ssdesc cid fuel s c r err).status →
      AtEvery client rw ssdesc (FirstError client rw ssdesc stat mech []) v
        (loop client rw db mech ssdesc cid fuel s c r err).trace := by
  have hP : ∀ (stat : Status) (v : Vars σ χ) (b : Bool) (post : List Event),
      FirstError client rw ssdesc stat mech [] v (Event.Completed b) post := by
    intro stat v b post e he
    simp [callError] at he
  induction fuel using Nat.strong_induction_on with
  | _ fuel ih =>
    intro s c r err v stat hvs hvc hstat
    rcases loop_cases client rw db mech ssdesc cid fuel s c r err with
      ⟨_, heq⟩ | ⟨_, _, heq⟩ | ⟨_, _, s1, payload, e, hN, heq⟩ |
      ⟨_, _, s1, payload, hN, _, heq⟩ | ⟨_, _, s1, payload, hN, _, _, heq⟩ |
      ⟨_, _, s1, payload, hN, _, f, c1, rdr, e, hf, hR, heq⟩ |
      ⟨_, _, s1, payload, hN, _, f, c1, rdr, r1, e, hf, hR, hU, heq⟩ |
      ⟨_, _, s1, payload, hN, _, f, c1, rdr, r1, hf, hR, hU, heq⟩
    · rw [heq]; exact AtEvery_nil _ _ _ _ _
    · rw [heq]
      have := (AtEvery_doneAndCompleted client rw ssdesc _ (hP stat) v r s []).mpr
        (AtEvery_nil _ _ _ _ _)
      simpa using this
    · rw [heq] at hstat ⊢
      simp only [AtEvery_doneAndCompleted client rw ssdesc _ (hP stat), AtEvery_cons,
        AtEvery_nil, and_true]
      intro e0 he0
      simp only [callError, hvs, hN, Option.some.injEq] at he0
      subst he0
      exact ⟨hstat, rfl⟩
    · rw [heq] at hstat ⊢
      simp only [List.append_assoc, List.singleton_append, List.cons_append, List.nil_append,
        AtEvery_doneAndCompleted client rw ssdesc _ (hP stat), AtEvery_cons]
      refine ⟨?_, ?_⟩
      · intro e0 he0
        simp [callError, hvs, hN] at he0
      · have := (AtEvery_doneAndCompleted client rw ssdesc _ (hP stat)
          (replayStep client rw ssdesc v (Event.Next r.Payload)) r s1 []).mpr
          (AtEvery_nil _ _ _ _ _)
        simpa using this
    · rw [heq] at hstat ⊢
      simp only [List.append_assoc, List.singleton_append, List.cons_append, List.nil_append,
        AtEvery_doneAndCompleted client rw ssdesc _ (hP stat), AtEvery_cons]
      refine ⟨?_, ?_⟩
      · intro e0 he0
        simp [callError, hvs, hN] at he0
      · have := (AtEvery_doneAndCompleted client rw ssdesc _ (hP stat)
          (replayStep client rw ssdesc v (Event.Next r.Payload)) r s1 []).mpr
          (AtEvery_nil _ _ _ _ _)
        simpa using this
    · rw [heq] at hstat ⊢
      simp only [List.append_assoc, List.singleton_append, List.cons_append, List.nil_append,
        AtEvery_doneAndCompleted client rw ssdesc _ (hP stat), AtEvery_cons, AtEvery_nil,
        and_true]
      refine ⟨?_, ?_⟩
      · intro e0 he0
        simp [callError, hvs, hN] at he0
      · intro e0 he0
        simp only [callError, replayStep, hvc, hR, Option.some.injEq] at he0
        subst he0
        exact ⟨hstat, rfl⟩
    · rw [heq] at hstat ⊢
      simp only [List.append_assoc, List.singleton_append, List.cons_append, List.nil_append,
        AtEvery_doneAndCompleted client rw ssdesc _ (hP stat), AtEvery_cons, AtEvery_nil,
        and_true]
      refine ⟨?_, ?_⟩
      · intro e0 he0
        simp [callError, hvs, hN] at he0
      · intro e0 he0
        simp [callError, replayStep, hvc, hR] at he0
    · rw [heq] at hstat ⊢
      simp only [Outcome.after, List.append_assoc, List.singleton_append, List.cons_append,
        List.nil_append,
        AtEvery_doneAndCompleted client rw ssdesc _ (hP stat), AtEvery_cons]
      refine ⟨?_, ?_, ?_, ?_⟩
      · intro e0 he0
        simp [callError, hvs, hN] at he0
      · intro e0 he0
        simp [callError, replayStep, hvc, hR] at he0
      · intro e0 he0
        simp [callError] at he0
      · exact ih f (by omega) s1 c1 r1 none _ stat (by simp [replayStep, hvs, hN])
          (by simp [replayStep, hvc, hR]) hstat

/-- A property that holds of every event of a trace, whatever the variables and the events
after it, holds at every position. -/
theorem AtEvery_of_forall (client : SaslClient σ) (rw : ReadWriter χ)
    (ssdesc : SelectedServer) (P : Vars σ χ → Event → List Event → Prop) (v : Vars σ χ)
    (tr : List Event) (h : ∀ w ev post, ev ∈ tr → P w ev post) :
    AtEvery client rw ssdesc P v tr := by
  intro pre ev post hp
  exact h _ ev post (by rw [hp]; simp)

/-- A first-error property of a trace extends to the trace followed by events that are no
failing call. -/
theorem AtEvery_firstError_tail (client : SaslClient σ) (rw : ReadWriter χ)
    (ssdesc : SelectedServer) (stat : Status) (mech : String) (tail tr : List Event)
    (htail : ∀ (w : Vars σ χ) ev, ev ∈ tail → callError client rw ssdesc w ev = none) :
    ∀ v : Vars σ χ,
      AtEvery client rw ssdesc (FirstError client rw ssdesc stat mech []) v tr →
      AtEvery client rw ssdesc (FirstError client rw ssdesc stat mech tail) v
        (tr ++ tail) := by
  induction tr with
  | nil =>
    intro v _
    rw [List.nil_append]
    apply AtEvery_of_forall
    intro w ev post hev e he
    rw [htail w ev hev] at he
    cases he
  | cons x t ih =>
    intro v h
    rw [List.cons_append, AtEvery_cons]
    rw [AtEvery_cons] at h
    refine ⟨fun e he => ?_, ih _ h.2⟩
    obtain ⟨h1, h2⟩ := h.1 e he
    exact ⟨h1, by rw [h2, List.nil_append]⟩

/-- Before the deferred call, a call that fails is the last event, and the conversation
has returned the error of that call wrapped by `newError` with the mechanism name that
`Start` returned. -/
theorem conversation_first_error (client : SaslClient σ) (rw : ReadWriter χ) (db : String)
    (desc : Server) (fuel : Nat) (s : σ) (c : χ) :
    AtEvery client rw { Server := desc, Kind := 0 }
      (FirstError client rw { Server := desc, Kind := 0 }
        (conversation client rw db desc fuel s c).status (client.Start s).2.1 [])
      (Vars.initial s c) (conversation client rw db desc fuel s c).trace := by
  rcases conversation_cases client rw db desc fuel s c with
    ⟨s1, mech, payload, e, hS, heq⟩ | ⟨s1, mech, payload, hS, c1, rdr, e, hR, heq⟩ |
    ⟨s1, mech, payload, hS, c1, rdr, r0, e, hR, hU, heq⟩ |
    ⟨s1, mech, payload, hS, c1, rdr, r0, hR, hU, heq⟩
  · rw [heq]
    simp only [AtEvery_cons, AtEvery_nil, and_true]
    intro e0 he0
    simp only [callError, Vars.initial, hS, Option.some.injEq] at he0
    subst he0
    simp [hS]
  · rw [heq]
    simp only [AtEvery_cons, AtEvery_nil, and_true]
    refine ⟨?_, ?_⟩
    · intro e0 he0
      simp [callError, Vars.initial, hS] at he0
    · intro e0 he0
      simp only [callError, replayStep, Vars.initial, hR, Option.some.injEq] at he0
      subst he0
      simp [hS]
  · rw [heq]
    simp only [AtEvery_cons, AtEvery_nil, and_true]
    refine ⟨?_, ?_⟩
    · intro e0 he0
      simp [callError, Vars.initial, hS] at he0
    · intro e0 he0
      simp [callError, replayStep, Vars.initial, hR] at he0
  · rw [heq]
    simp only [Outcome.after, List.cons_append, List.nil_append, AtEvery_cons]
    refine ⟨?_, ?_, ?_, ?_⟩
    · intro e0 he0
      simp [callError, Vars.initial, hS] at he0
    · intro e0 he0
      simp [callError, replayStep, Vars.initial, hR] at he0
    · intro e0 he0
      simp [callError] at he0
    · have hm : (client.Start s).2.1 = mech := by rw [hS]
      rw [hm]
      exact loop_first_error client rw db mech _ _ fuel s1 c1 r0 none _ _
        (by simp [replayStep, Vars.initial, hS]) (by simp [replayStep, Vars.initial, hR]) rfl

/-- No event of the loop is a call of `Start`. -/
theorem loop_noStart (client : SaslClient σ) (rw : ReadWriter χ) (db mech : String)
    (ssdesc : SelectedServer) (cid : Int) (fuel : Nat) (s : σ) (c : χ)
    (saslResp : saslResponse) (err : Option Err) :
    ∀ e ∈ (loop client rw db mech ssdesc cid fuel s c saslResp err).trace,
      e.isStart = false := by
  induction fuel generalizing s c saslResp err with
  | zero =>
    rcases loop_step client rw db mech ssdesc cid 0 s c saslResp err with
      ⟨_, heq⟩ | ⟨_, hall⟩ | ⟨_, _, _, _, _, _, f, hf, _, _⟩
    · rw [heq]; simp
    · intro e he
      rcases hall e he with ⟨_, h⟩ | ⟨_, h⟩ | ⟨_, h⟩ <;> subst h <;> rfl
    · omega
  | succ n ih =>
    rcases loop_step client rw db mech ssdesc cid (n + 1) s c saslResp err with
      ⟨_, heq⟩ | ⟨_, hall⟩ | ⟨_, evs, cmd, s1, c1, r1, f, hf, hevs, heq⟩
    · rw [heq]; simp
    · intro e he
      rcases hall e he with ⟨_, h⟩ | ⟨_, h⟩ | ⟨_, h⟩ <;> subst h <;> rfl
    · have hfn : f = n := by omega
      subst hfn
      rw [heq]
      intro e he
      simp only [Outcome.after, List.mem_append, List.mem_cons, List.mem_singleton,
        List.not_mem_nil, or_false] at he
      rcases he with (he | he | he) | he
      · rcases hevs e he with ⟨_, h⟩ | ⟨_, h⟩ <;> subst h <;> rfl
      · subst he; rfl
      · subst he; rfl
      · exact ih s1 c1 r1 none e he

/-- The conversation begins with its one call of `Start`. -/
theorem conversation_start_first (client : SaslClient σ) (rw : ReadWriter χ) (db : String)
    (desc : Server) (fuel : Nat) (s : σ) (c : χ) :
    ∃ rest, (conversation client rw db desc fuel s c).trace = Event.Start :: rest ∧
      ∀ e ∈ rest, e.isStart = false := by
  rcases conversation_cases client rw db desc fuel s c with
    ⟨s1, mech, payload, e, hS, heq⟩ | ⟨s1, mech, payload, hS, c1, rdr, e, hR, heq⟩ |
    ⟨s1, mech, payload, hS, c1, rdr, r0, e, hR, hU, heq⟩ |
    ⟨s1, mech, payload, hS, c1, rdr, r0, hR, hU, heq⟩
  · exact ⟨[], by rw [heq], by simp⟩
  · exact ⟨_, by rw [heq], by simp [Event.isStart]⟩
  · exact ⟨_, by rw [heq], by simp [Event.isStart]⟩
  · refine ⟨[Event.RoundTrip (Command.saslStart db mech payload), Event.Reply r0] ++
      (loop client rw db mech { Server := desc, Kind := 0 } r0.ConversationID fuel
        s1 c1 r0 none).trace, by rw [heq]; rfl, ?_⟩
    intro e he
    simp only [List.cons_append, List.nil_append, List.mem_cons] at he
    rcases he with he | he | he
    · subst he; rfl
    · subst he; rfl
    · exact loop_noStart client rw db mech _ _ fuel s1 c1 r0 none e he

/-- C14: `ConductSaslConversation` surfaces the first error and aborts. In every run,
whatever the bound on commands: if the call recorded at some position of the trace
(`Start`, `Next`, or a `saslStart` or `saslContinue` round trip), made in the client
and connection states reached by the events before it, returns an error `e`, then the
run has returned the non-nil error `newError(e, mech)`, and the only event after the
failing call is the deferred `Close` of a closer: no further command, no further `Next`
or `Start`, no retry. A failing `Start` is the first event, so no command is sent. -/
theorem ConductSaslConversation_first_error (defaultAuthDB : String) (fuel : Nat)
    (desc : Server) (rw : ReadWriter χ) (db : String) (client : SaslClient σ) (s : σ) (c : χ)
    (pre post : List Event) (ev : Event) (e : Err)
    (htr : (ConductSaslConversation defaultAuthDB fuel desc rw db client s c).trace =
      pre ++ ev :: post)
    (hfail : callError client rw { Server := desc, Kind := 0 }
      (replay client rw { Server := desc, Kind := 0 } (Vars.initial s c) pre) ev = some e) :
    (ConductSaslConversation defaultAuthDB fuel desc rw db client s c).status =
        Status.returned (some (Error.newError (some e) (client.Start s).2.1)) ∧
      post = (if client.Close.isSome then [Event.Close] else []) ∧
      roundTrips post = 0 ∧ nexts post = 0 ∧ starts post = 0 ∧
      (ev = Event.Start → pre = [] ∧
        roundTrips (ConductSaslConversation defaultAuthDB fuel desc rw db client s c).trace
          = 0) := by
  have hpost : ∀ p : List Event, p = (if client.Close.isSome then [Event.Close] else []) →
      roundTrips p = 0 ∧ nexts p = 0 ∧ starts p = 0 := by
    intro p hp
    subst hp
    split <;> simp [roundTrips, nexts, starts, Event.isRoundTrip, Event.isNext, Event.isStart]
  by_cases harb : desc.Kind = ServerKind.RSArbiter
  · simp [ConductSaslConversation, harb] at htr
  have hrun : ConductSaslConversation defaultAuthDB fuel desc rw db client s c =
      runDeferred client
        (conversation client rw (if db = "" then defaultAuthDB else db) desc fuel s c) := by
    simp only [ConductSaslConversation, harb, if_false]
  generalize (if db = "" then defaultAuthDB else db) = db1 at hrun
  rw [hrun] at htr ⊢
  rw [runDeferred_status]
  rw [runDeferred_trace] at htr ⊢
  have hconv := conversation_first_error client rw db1 desc fuel s c
  set tail : List Event :=
    (if (conversation client rw db1 desc fuel s c).status ≠ Status.outOfFuel ∧
      client.Close.isSome then [Event.Close] else []) with htail
  have htailnone : ∀ (w : Vars σ χ) ev0, ev0 ∈ tail →
      callError client rw { Server := desc, Kind := 0 } w ev0 = none := by
    intro w ev0 hev0
    rw [htail] at hev0
    split at hev0
    · simp only [List.mem_singleton] at hev0
      subst hev0
      rfl
    · simp at hev0
  have hall := AtEvery_firstError_tail client rw { Server := desc, Kind := 0 }
    (conversation client rw db1 desc fuel s c).status (client.Start s).2.1 tail
    (conversation client rw db1 desc fuel s c).trace htailnone (Vars.initial s c) hconv
  obtain ⟨hst, hp⟩ := hall pre ev post htr e hfail
  have hp2 : post = (if client.Close.isSome then [Event.Close] else []) := by
    rw [hp, htail, hst]
    by_cases hc : client.Close.isSome = true <;> simp [hc]
  refine ⟨hst, hp2, (hpost post hp2).1, (hpost post hp2).2.1, (hpost post hp2).2.2, ?_⟩
  intro hev
  subst hev
  obtain ⟨rest, hrest, hns⟩ := conversation_start_first client rw db1 desc fuel s c
  rw [hrest] at htr
  have hpre : pre = [] := by
    cases pre with
    | nil => rfl
    | cons p pre1 =>
      exfalso
      simp only [List.cons_append, List.cons.injEq] at htr
      have hmem : Event.Start ∈ rest ++ tail := by rw [htr.2]; simp
      rw [List.mem_append] at hmem
      rcases hmem with hm | hm
      · have := hns _ hm
        simp [Event.isStart] at this
      · have := htailnone (Vars.initial s c) _ hm
        rw [htail] at hm
        split at hm <;> simp at hm
  refine ⟨hpre, ?_⟩
  subst hpre
  rw [hrest, htr, hp]
  have := (hpost tail (by rw [← hp]; exact hp2)).1
  simpa [roundTrips, Event.isRoundTrip] using this

/-- C14, evaluated: the second call of `Next` of the scripted client fails; the run
returns that error wrapped by `newError`, and only the deferred `Close` follows the
failing call. -/
theorem ConductSaslConversation_first_error_witness :
    (ConductSaslConversation "admin" 5 (sample.desc ServerKind.RSPrimary)
        (sample.server 9 99) "" (sample.clientFailing 5 1) 0 0).trace =
      [Event.Start, Event.RoundTrip (Command.saslStart "admin" "PLAIN" [1]),
        Event.Reply { ConversationID := 7, Code := 0, Done := false, Payload := [0] },
        Event.Next [0], Event.RoundTrip (Command.saslContinue "admin" 7 [0, 0]),
        Event.Reply { ConversationID := 7, Code := 0, Done := false, Payload := [1] }] ++
      Event.Next [1] :: [Event.Close] ∧
    (ConductSaslConversation "admin" 5 (sample.desc ServerKind.RSPrimary)
        (sample.server 9 99) "" (sample.clientFailing 5 1) 0 0).status =
      Status.returned (some (Error.newError (some "next failed") "PLAIN")) :=
  have htr : (ConductSaslConversation "admin" 5 (sample.desc ServerKind.RSPrimary)
        (sample.server 9 99) "" (sample.clientFailing 5 1) 0 0).trace =
      [Event.Start, Event.RoundTrip (Command.saslStart "admin" "PLAIN" [1]),
        Event.Reply { ConversationID := 7, Code := 0, Done := false, Payload := [0] },
        Event.Next [0], Event.RoundTrip (Command.saslContinue "admin" 7 [0, 0]),
        Event.Reply { ConversationID := 7, Code := 0, Done := false, Payload := [1] }] ++
      Event.Next [1] :: [Event.Close] := by decide
  ⟨htr, (ConductSaslConversation_first_error "admin" 5 (sample.desc ServerKind.RSPrimary)
    (sample.server 9 99) "" (sample.clientFailing 5 1) 0 0 _ _ _ "next failed" htr
    (by decide)).1⟩

/-! ### Success needs a reply with `done` and a completed client -/

/-- No event caused by the exit test is a reply. -/
theorem doneAndCompleted_noReply (client : SaslClient σ) (saslResp : saslResponse) (s : σ) :
    ∀ e ∈ (doneAndCompleted client saslResp s).2, e.isReply = false := by
  intro e he
  rw [doneAndCompleted_events client saslResp s e he]
  rfl

/-- When the loop returns success, the last reply it held (the one it was entered with,
or the last one decoded) has code 0 and `done`, and the last event is a call of
`Completed` that returned true, made after that reply. -/
theorem loop_success (client : SaslClient σ) (rw : ReadWriter χ) (db mech : String)
    (ssdesc : SelectedServer) (cid : Int) (fuel : Nat) :
    ∀ (s : σ) (c : χ) (r : saslResponse) (err : Option Err),
      (loop client rw db mech ssdesc cid fuel s c r err).status = Status.returned none →
      (r.Code = 0 ∧ r.Done = true ∧
        ∃ mid, (loop client rw db mech ssdesc cid fuel s c r err).trace =
            mid ++ [Event.Completed true] ∧
          ∀ e ∈ mid, e.isReply = false) ∨
      (∃ pre resp mid, (loop client rw db mech ssdesc cid fuel s c r err).trace =
          pre ++ Event.Reply resp :: (mid ++ [Event.Completed true]) ∧
        (∀ e ∈ mid, e.isReply = false) ∧ resp.Code = 0 ∧ resp.Done = true) := by
  induction fuel using Nat.strong_induction_on with
  | _ fuel ih =>
    intro s c r err hst
    rcases loop_cases client rw db mech ssdesc cid fuel s c r err with
      ⟨_, heq⟩ | ⟨hcode, h1, heq⟩ | ⟨_, _, s1, payload, e, hN, heq⟩ |
      ⟨hcode, _, s1, payload, hN, h2, heq⟩ | ⟨_, _, s1, payload, hN, _, _, heq⟩ |
      ⟨_, _, s1, payload, hN, _, f, c1, rdr, e, hf, hR, heq⟩ |
      ⟨_, _, s1, payload, hN, _, f, c1, rdr, r1, e, hf, hR, hU, heq⟩ |
      ⟨_, _, s1, payload, hN, _, f, c1, rdr, r1, hf, hR, hU, heq⟩
    · rw [heq] at hst; simp at hst
    · left
      obtain ⟨hd, _, hev⟩ := doneAndCompleted_true client r s h1
      refine ⟨hcode, hd, [], ?_, by simp⟩
      rw [heq, hev]; rfl
    · rw [heq] at hst; simp at hst
    · left
      obtain ⟨hd, _, hev⟩ := doneAndCompleted_true client r s1 h2
      refine ⟨hcode, hd, (doneAndCompleted client r s).2 ++ [Event.Next r.Payload], ?_, ?_⟩
      · rw [heq, hev]
      · intro e he
        rw [List.mem_append, List.mem_singleton] at he
        rcases he with he | he
        · exact doneAndCompleted_noReply client r s e he
        · subst he; rfl
    · rw [heq] at hst; simp at hst
    · rw [heq] at hst; simp at hst
    · rw [heq] at hst; simp at hst
    · right
      rw [heq] at hst ⊢
      have hst2 : (loop client rw db mech ssdesc cid f s1 c1 r1 none).status =
          Status.returned none := hst
      rcases ih f (by omega) s1 c1 r1 none hst2 with
        ⟨hc1, hd1, mid, htr, hmid⟩ | ⟨pre, resp, mid, htr, hmid, hc, hd⟩
      · refine ⟨(doneAndCompleted client r s).2 ++ [Event.Next r.Payload] ++
          (doneAndCompleted client r s1).2 ++
          [Event.RoundTrip (Command.saslContinue db (toInt32 cid) payload)], r1, mid,
          ?_, hmid, hc1, hd1⟩
        simp [Outcome.after, htr]
      · refine ⟨(doneAndCompleted client r s).2 ++ [Event.Next r.Payload] ++
          (doneAndCompleted client r s1).2 ++
          [Event.RoundTrip (Command.saslContinue db (toInt32 cid) payload),
            Event.Reply r1] ++ pre, resp, mid, ?_, hmid, hc, hd⟩
        simp [Outcome.after, htr]

/-- C18: on a non-arbiter server, when `ConductSaslConversation` returns success, the
trace ends (up to the deferred `Close`) with a decoded reply that has `code == 0` and
`done == true`, followed by events none of which is a reply, followed by a call of
`Completed` that returned true: the most recent reply signals done with code 0, and the
provider reported completion after that reply was received. -/
theorem ConductSaslConversation_success_only (defaultAuthDB : String) (fuel : Nat)
    (desc : Server) (rw : ReadWriter χ) (db : String) (client : SaslClient σ) (s : σ) (c : χ)
    (hkind : desc.Kind ≠ ServerKind.RSArbiter)
    (hsucc : (ConductSaslConversation defaultAuthDB fuel desc rw db client s c).status =
      Status.returned none) :
    ∃ pre resp mid,
      (ConductSaslConversation defaultAuthDB fuel desc rw db client s c).trace =
        pre ++ Event.Reply resp ::
          (mid ++ Event.Completed true ::
            (if client.Close.isSome then [Event.Close] else [])) ∧
      (∀ e ∈ mid, e.isReply = false) ∧ resp.Code = 0 ∧ resp.Done = true := by
  have hrun : ConductSaslConversation defaultAuthDB fuel desc rw db client s c =
      runDeferred client
        (conversation client rw (if db = "" then defaultAuthDB else db) desc fuel s c) := by
    simp only [ConductSaslConversation, hkind, if_false]
  generalize (if db = "" then defaultAuthDB else db) = db1 at hrun
  rw [hrun] at hsucc ⊢
  rw [runDeferred_status] at hsucc
  rw [runDeferred_trace]
  have htail : (if (conversation client rw db1 desc fuel s c).status ≠ Status.outOfFuel ∧
      client.Close.isSome then [Event.Close] else []) =
      (if client.Close.isSome then [Event.Close] else []) := by
    rw [hsucc]
    by_cases hc : client.Close.isSome = true <;> simp [hc]
  rw [htail]
  rcases conversation_cases client rw db1 desc fuel s c with
    ⟨s1, mech, payload, e, hS, heq⟩ | ⟨s1, mech, payload, hS, c1, rdr, e, hR, heq⟩ |
    ⟨s1, mech, payload, hS, c1, rdr, r0, e, hR, hU, heq⟩ |
    ⟨s1, mech, payload, hS, c1, rdr, r0, hR, hU, heq⟩
  · rw [heq] at hsucc; simp at hsucc
  · rw [heq] at hsucc; simp at hsucc
  · rw [heq] at hsucc; simp at hsucc
  · rw [heq] at hsucc ⊢
    have hst2 : (loop client rw db1 mech { Server := desc, Kind := 0 } r0.ConversationID
        fuel s1 c1 r0 none).status = Status.returned none := hsucc
    rcases loop_success client rw db1 mech _ _ fuel s1 c1 r0 none hst2 with
      ⟨hc1, hd1, mid, htr, hmid⟩ | ⟨pre, resp, mid, htr, hmid, hc, hd⟩
    · refine ⟨[Event.Start, Event.RoundTrip (Command.saslStart db1 mech payload)], r0, mid,
        ?_, hmid, hc1, hd1⟩
      simp [Outcome.after, htr]
    · refine ⟨[Event.Start, Event.RoundTrip (Command.saslStart db1 mech payload),
        Event.Reply r0] ++ pre, resp, mid, ?_, hmid, hc, hd⟩
      simp [Outcome.after, htr]

/-- C18, evaluated: the run of the scripted client that needs two calls of `Next`
against the server that reports `done` in its third reply. -/
theorem ConductSaslConversation_success_only_witness :
    ∃ pre resp mid,
      (ConductSaslConversation "admin" 5 (sample.desc ServerKind.RSPrimary)
          (sample.server 2 99) "" (sample.client 2 true) 0 0).trace =
        pre ++ Event.Reply resp :: (mid ++ Event.Completed true :: [Event.Close]) ∧
      (∀ e ∈ mid, e.isReply = false) ∧ resp.Code = 0 ∧ resp.Done = true :=
  ConductSaslConversation_success_only "admin" 5 (sample.desc ServerKind.RSPrimary)
    (sample.server 2 99) "" (sample.client 2 true) 0 0 (by decide) (by decide)

/-! ### Completion right after `Next` -/

/-- A property of every position extends to the trace followed by `tail`, when it is
stable under appending `tail` to the events after the position and holds of the events
of `tail`. -/
theorem AtEvery_tail (client : SaslClient σ) (rw : ReadWriter χ) (ssdesc : SelectedServer)
    (P Q : Vars σ χ → Event → List Event → Prop) (tail tr : List Event)
    (hPQ : ∀ w ev post, P w ev post → Q w ev (post ++ tail))
    (hQ : ∀ w ev post, ev ∈ tail → Q w ev post) :
    ∀ v : Vars σ χ, AtEvery client rw ssdesc P v tr →
      AtEvery client rw ssdesc Q v (tr ++ tail) := by
  induction tr with
  | nil =>
    intro v _
    rw [List.nil_append]
    exact AtEvery_of_forall client rw ssdesc Q v tail hQ
  | cons x t ih =>
    intro v h
    rw [List.cons_append, AtEvery_cons]
    rw [AtEvery_cons] at h
    exact ⟨hPQ _ _ _ h.1, ih _ h.2⟩

/-- In the loop entered with `err` nil, whenever a decoded reply has a nonzero code the
loop has returned `newError(nil, mech)`, whatever the code is. -/
theorem loop_code_error_value (client : SaslClient σ) (rw : ReadWriter χ) (db mech : String)
    (ssdesc : SelectedServer) (cid : Int) (fuel : Nat) :
    ∀ (s : σ) (c : χ) (r : saslResponse) (v : Vars σ χ) (stat : Status),
      stat = (loop client rw db mech ssdesc cid fuel s c r none).status →
      (r.Code ≠ 0 → stat = Status.returned (some (Error.newError none mech))) ∧
      AtEvery client rw ssdesc (CodeLost stat mech) v
        (loop client rw db mech ssdesc cid fuel s c r none).trace := by
  have hP : ∀ (stat : Status) (v : Vars σ χ) (b : Bool) (post : List Event),
      CodeLost stat mech v (Event.Completed b) post := by
    intro stat v b post resp he
    cases he
  induction fuel using Nat.strong_induction_on with
  | _ fuel ih =>
    intro s c r v stat hstat
    rcases loop_cases client rw db mech ssdesc cid fuel s c r none with
      ⟨hc, heq⟩ | ⟨hc, _, heq⟩ | ⟨hc, _, s1, payload, e, hN, heq⟩ |
      ⟨hc, _, s1, payload, hN, _, heq⟩ | ⟨hc, _, s1, payload, hN, _, _, heq⟩ |
      ⟨hc, _, s1, payload, hN, _, f, c1, rdr, e, hf, hR, heq⟩ |
      ⟨hc, _, s1, payload, hN, _, f, c1, rdr, r1, e, hf, hR, hU, heq⟩ |
      ⟨hc, _, s1, payload, hN, _, f, c1, rdr, r1, hf, hR, hU, heq⟩
    · rw [heq] at hstat ⊢
      exact ⟨fun _ => hstat, AtEvery_nil _ _ _ _ _⟩
    all_goals refine ⟨fun h => absurd hc h, ?_⟩
    · rw [heq]
      have := (AtEvery_doneAndCompleted client rw ssdesc _ (hP stat) v r s []).mpr
        (AtEvery_nil _ _ _ _ _)
      simpa using this
    · rw [heq]
      simp only [AtEvery_doneAndCompleted client rw ssdesc _ (hP stat), AtEvery_cons,
        AtEvery_nil, and_true]
      intro resp he
      cases he
    · rw [heq]
      simp only [List.append_assoc, List.singleton_append, List.cons_append,
        List.nil_append, AtEvery_doneAndCompleted client rw ssdesc _ (hP stat), AtEvery_cons]
      refine ⟨fun resp he => (by cases he), ?_⟩
      have := (AtEvery_doneAndCompleted client rw ssdesc _ (hP stat)
        (replayStep client rw ssdesc v (Event.Next r.Payload)) r s1 []).mpr
        (AtEvery_nil _ _ _ _ _)
      simpa using this
    · rw [heq]
      simp only [List.append_assoc, List.singleton_append, List.cons_append,
        List.nil_append, AtEvery_doneAndCompleted client rw ssdesc _ (hP stat), AtEvery_cons]
      refine ⟨fun resp he => (by cases he), ?_⟩
      have := (AtEvery_doneAndCompleted client rw ssdesc _ (hP stat)
        (replayStep client rw ssdesc v (Event.Next r.Payload)) r s1 []).mpr
        (AtEvery_nil _ _ _ _ _)
      simpa using this
    · rw [heq]
      simp only [List.append_assoc, List.singleton_append, List.cons_append,
        List.nil_append, AtEvery_doneAndCompleted client rw ssdesc _ (hP stat), AtEvery_cons,
        AtEvery_nil, and_true]
      exact ⟨fun resp he => (by cases he), fun resp he => (by cases he)⟩
    · rw [heq]
      simp only [List.append_assoc, List.singleton_append, List.cons_append,
        List.nil_append, AtEvery_doneAndCompleted client rw ssdesc _ (hP stat), AtEvery_cons,
        AtEvery_nil, and_true]
      exact ⟨fun resp he => (by cases he), fun resp he => (by cases he)⟩
    · rw [heq] at hstat ⊢
      have hrec := ih f (by omega) s1 c1 r1
        (replayStep client rw ssdesc (replayStep client rw ssdesc
          (replayStep client rw ssdesc v (Event.Next r.Payload))
          (Event.RoundTrip (Command.saslContinue db (toInt32 cid) payload)))
          (Event.Reply r1)) stat hstat
      simp only [Outcome.after, List.append_assoc, List.singleton_append, List.cons_append,
        List.nil_append, AtEvery_doneAndCompleted client rw ssdesc _ (hP stat), AtEvery_cons]
      refine ⟨fun resp he => (by cases he), fun resp he => (by cases he), ?_, hrec.2⟩
      intro resp he hbad
      cases he
      exact hrec.1 hbad

/-- C13 fails on the code: two runs that differ only in the nonzero code of the failing
reply (18 in one, 13 in the other) return the same error, `newError(nil, "PLAIN")`: the
error is built from the variable `err`, which is nil after the successful decoding, and
not from the response code. -/
theorem ConductSaslConversation_code_not_in_error :
    (ConductSaslConversation "admin" 5 (sample.desc ServerKind.RSPrimary)
        (sample.serverCode 9 0 18) "" (sample.client 5 true) 0 0).trace =
      [Event.Start, Event.RoundTrip (Command.saslStart "admin" "PLAIN" [1]),
        Event.Reply { ConversationID := 7, Code := 18, Done := false, Payload := [0] },
        Event.Close] ∧
    (ConductSaslConversation "admin" 5 (sample.desc ServerKind.RSPrimary)
        (sample.serverCode 9 0 13) "" (sample.client 5 true) 0 0).trace =
      [Event.Start, Event.RoundTrip (Command.saslStart "admin" "PLAIN" [1]),
        Event.Reply { ConversationID := 7, Code := 13, Done := false, Payload := [0] },
        Event.Close] ∧
    (ConductSaslConversation "admin" 5 (sample.desc ServerKind.RSPrimary)
        (sample.serverCode 9 0 18) "" (sample.client 5 true) 0 0).status =
      Status.returned (some (Error.newError none "PLAIN")) ∧
    (ConductSaslConversation "admin" 5 (sample.desc ServerKind.RSPrimary)
        (sample.serverCode 9 0 13) "" (sample.client 5 true) 0 0).status =
      Status.returned (some (Error.newError none "PLAIN")) := by
  decide

/-- In every run, whenever a decoded reply has a nonzero code, the error returned is
`newError(nil, mech)` with the mechanism name that `Start` returned: it does not depend
on the code. -/
theorem ConductSaslConversation_code_error_value (defaultAuthDB : String) (fuel : Nat)
    (desc : Server) (rw : ReadWriter χ) (db : String) (client : SaslClient σ) (s : σ) (c : χ)
    (pre post : List Event) (resp : saslResponse)
    (htr : (ConductSaslConversation defaultAuthDB fuel desc rw db client s c).trace =
      pre ++ Event.Reply resp :: post)
    (hbad : resp.Code ≠ 0) :
    (ConductSaslConversation defaultAuthDB fuel desc rw db client s c).status =
      Status.returned (some (Error.newError none (client.Start s).2.1)) := by
  by_cases harb : desc.Kind = ServerKind.RSArbiter
  · simp [ConductSaslConversation, harb] at htr
  have hrun : ConductSaslConversation defaultAuthDB fuel desc rw db client s c =
      runDeferred client
        (conversation client rw (if db = "" then defaultAuthDB else db) desc fuel s c) := by
    simp only [ConductSaslConversation, harb, if_false]
  generalize (if db = "" then defaultAuthDB else db) = db1 at hrun
  rw [hrun] at htr ⊢
  rw [runDeferred_status]
  rw [runDeferred_trace] at htr
  have hconv : AtEvery client rw { Server := desc, Kind := 0 }
      (CodeLost (conversation client rw db1 desc fuel s c).status (client.Start s).2.1)
      (Vars.initial s c) (conversation client rw db1 desc fuel s c).trace := by
    rcases conversation_cases client rw db1 desc fuel s c with
      ⟨s2, mech, payload, e, hS, heq⟩ | ⟨s2, mech, payload, hS, c1, rdr, e, hR, heq⟩ |
      ⟨s2, mech, payload, hS, c1, rdr, r0, e, hR, hU, heq⟩ |
      ⟨s2, mech, payload, hS, c1, rdr, r0, hR, hU, heq⟩
    · rw [heq]
      apply AtEvery_of_forall
      intro w ev post hev resp he
      simp only [List.mem_singleton] at hev
      subst hev
      cases he
    · rw [heq]
      apply AtEvery_of_forall
      intro w ev post hev resp he
      simp only [List.mem_cons, List.mem_singleton, List.not_mem_nil, or_false] at hev
      rcases hev with hev | hev <;> subst hev <;> cases he
    · rw [heq]
      apply AtEvery_of_forall
      intro w ev post hev resp he
      simp only [List.mem_cons, List.mem_singleton, List.not_mem_nil, or_false] at hev
      rcases hev with hev | hev <;> subst hev <;> cases he
    · have hm : (client.Start s).2.1 = mech := by rw [hS]
      have hrec := loop_code_error_value client rw db1 mech { Server := desc, Kind := 0 }
        r0.ConversationID fuel s2 c1 r0
        (replayStep client rw { Server := desc, Kind := 0 }
          (replayStep client rw { Server := desc, Kind := 0 }
            (replayStep client rw { Server := desc, Kind := 0 } (Vars.initial s c)
              Event.Start)
            (Event.RoundTrip (Command.saslStart db1 mech payload)))
          (Event.Reply r0)) _ rfl
      rw [heq, hm]
      simp only [Outcome.after, List.cons_append, List.nil_append, AtEvery_cons]
      refine ⟨fun resp he => (by cases he), fun resp he => (by cases he), ?_, hrec.2⟩
      intro resp1 he hbad1
      cases he
      exact hrec.1 hbad1
  have hall := AtEvery_tail client rw { Server := desc, Kind := 0 }
    (CodeLost (conversation client rw db1 desc fuel s c).status (client.Start s).2.1)
    (CodeLost (conversation client rw db1 desc fuel s c).status (client.Start s).2.1)
    (if (conversation client rw db1 desc fuel s c).status ≠ Status.outOfFuel ∧
      client.Close.isSome then [Event.Close] else [])
    (conversation client rw db1 desc fuel s c).trace
    (fun _ _ _ h => h)
    (by
      intro w ev post0 hev resp0 he
      subst he
      split at hev <;> simp at hev)
    (Vars.initial s c) hconv
  exact hall pre (Event.Reply resp) post htr resp rfl hbad

/-! ### What the calls and the commands carry -/

/-- No position in the empty trace. -/
theorem After_nil (P : List Event → Event → Prop) (pfx : List Event) : After P pfx [] := by
  intro pre ev post h
  simp at h

/-- A property of every position after `pfx`, one event at a time. -/
theorem After_cons (P : List Event → Event → Prop) (pfx : List Event) (x : Event)
    (tr : List Event) :
    After P pfx (x :: tr) ↔ P pfx x ∧ After P (pfx ++ [x]) tr := by
  constructor
  · intro h
    refine ⟨by simpa using h [] x tr rfl, ?_⟩
    intro pre ev post hp
    have := h (x :: pre) ev post (by rw [hp]; rfl)
    simpa using this
  · rintro ⟨h1, h2⟩ pre ev post hp
    cases pre with
    | nil =>
      simp only [List.nil_append, List.cons.injEq] at hp
      obtain ⟨rfl, rfl⟩ := hp
      simpa using h1
    | cons p pre1 =>
      simp only [List.cons_append, List.cons.injEq] at hp
      obtain ⟨rfl, rfl⟩ := hp
      have := h2 pre1 ev post rfl
      simpa using this

/-- A property of every position after `pfx`, a block of events at a time. -/
theorem After_append (P : List Event → Event → Prop) (A : List Event) :
    ∀ (pfx tr : List Event), After P pfx (A ++ tr) ↔ After P pfx A ∧ After P (pfx ++ A) tr := by
  induction A with
  | nil =>
    intro pfx tr
    simp [After_nil]
  | cons a A1 ih =>
    intro pfx tr
    rw [List.cons_append, After_cons, After_cons, ih]
    simp [and_assoc]

/-- A property that holds of every event of a trace, whatever comes before it, holds at
every position. -/
theorem After_of_forall (P : List Event → Event → Prop) (pfx tr : List Event)
    (h : ∀ pre ev, ev ∈ tr → P pre ev) : After P pfx tr := by
  intro pre ev post hp
  exact h _ ev (by rw [hp]; simp)

/-- Replaying two traces one after the other. -/
theorem replay_append (client : SaslClient σ) (rw : ReadWriter χ) (ssdesc : SelectedServer)
    (v : Vars σ χ) (a b : List Event) :
    replay client rw ssdesc v (a ++ b) =
      replay client rw ssdesc (replay client rw ssdesc v a) b := by
  simp [replay, List.foldl_append]

/-- The calls of `Completed` do not change the variables. -/
theorem replay_doneAndCompleted (client : SaslClient σ) (rw : ReadWriter χ)
    (ssdesc : SelectedServer) (v : Vars σ χ) (r : saslResponse) (s : σ) :
    replay client rw ssdesc v (doneAndCompleted client r s).2 = v := by
  unfold doneAndCompleted
  split <;> simp [replay, replayStep]

/-- No event caused by the exit test is a call of `Next`. -/
theorem doneAndCompleted_noNext (client : SaslClient σ) (saslResp : saslResponse) (s : σ) :
    ∀ e ∈ (doneAndCompleted client saslResp s).2, e.isNext = false := by
  intro e he
  rw [doneAndCompleted_events client saslResp s e he]
  rfl

/-- A call of `Completed` carries nothing. -/
theorem Carries_completed (client : SaslClient σ) (rw : ReadWriter χ)
    (ssdesc : SelectedServer) (v0 : Vars σ χ) (pre : List Event) (b : Bool) :
    Carries client rw ssdesc v0 pre (Event.Completed b) :=
  ⟨fun _ h => (by cases h), fun _ _ _ h => (by cases h), fun _ _ _ h => (by cases h)⟩

/-- A decoded reply carries nothing. -/
theorem Carries_reply (client : SaslClient σ) (rw : ReadWriter χ)
    (ssdesc : SelectedServer) (v0 : Vars σ χ) (pre : List Event) (r : saslResponse) :
    Carries client rw ssdesc v0 pre (Event.Reply r) :=
  ⟨fun _ h => (by cases h), fun _ _ _ h => (by cases h), fun _ _ _ h => (by cases h)⟩

/-- Nothing is asked of the exit tests. -/
theorem After_doneAndCompleted (client : SaslClient σ) (rw : ReadWriter χ)
    (ssdesc : SelectedServer) (v0 : Vars σ χ) (pfx : List Event) (r : saslResponse) (s : σ) :
    After (Carries client rw ssdesc v0) pfx (doneAndCompleted client r s).2 := by
  apply After_of_forall
  intro pre ev hev
  rw [doneAndCompleted_events client r s ev hev]
  exact Carries_completed client rw ssdesc v0 pre _

/-- In the loop, entered after the events `pfx` of a run that started with the variables
`v0`: every call of `Next` receives the payload of the most recent reply, and every
`saslContinue` command carries the payload that the call of `Next` before it returned
and the conversation id of the first reply. -/
theorem loop_carries (client : SaslClient σ) (rw : ReadWriter χ) (db mech : String)
    (ssdesc : SelectedServer) (cid : Int) (v0 : Vars σ χ) (fuel : Nat) :
    ∀ (s : σ) (c : χ) (r : saslResponse) (err : Option Err) (pfx : List Event),
      (replay client rw ssdesc v0 pfx).client = s →
      (∃ pre0 mid, pfx = pre0 ++ Event.Reply r :: mid ∧ ∀ e ∈ mid, e.isReply = false) →
      (∃ d0 m0 pl0 r0 rest,
        pfx = Event.Start :: Event.RoundTrip (Command.saslStart d0 m0 pl0) ::
          Event.Reply r0 :: rest ∧ r0.ConversationID = cid) →
      After (Carries client rw ssdesc v0) pfx
        (loop client rw db mech ssdesc cid fuel s c r err).trace := by
  induction fuel using Nat.strong_induction_on with
  | _ fuel ih =>
    intro s c r err pfx hcl hlast hfirst
    have hE : ∀ (q : List Event) (x : σ),
        After (Carries client rw ssdesc v0) q (doneAndCompleted client r x).2 :=
      fun q x => After_doneAndCompleted client rw ssdesc v0 q r x
    have hNext : Carries client rw ssdesc v0 (pfx ++ (doneAndCompleted client r s).2)
        (Event.Next r.Payload) := by
      obtain ⟨pre0, mid, hp, hmid⟩ := hlast
      refine ⟨?_, fun _ _ _ h => (by cases h), fun _ _ _ h => (by cases h)⟩
      intro p hp2
      cases hp2
      refine ⟨pre0, r, mid ++ (doneAndCompleted client r s).2, by rw [hp]; simp, ?_, rfl⟩
      intro e he
      rw [List.mem_append] at he
      rcases he with he | he
      · exact hmid e he
      · exact doneAndCompleted_noReply client r s e he
    have hRT : ∀ (s1 : σ) (payload : Bytes) (oe : Option Err),
        client.Next s r.Payload = (s1, payload, oe) →
        Carries client rw ssdesc v0
          (pfx ++ (doneAndCompleted client r s).2 ++ [Event.Next r.Payload] ++
            (doneAndCompleted client r s1).2)
          (Event.RoundTrip (Command.saslContinue db (toInt32 cid) payload)) := by
      intro s1 payload oe hN
      refine ⟨fun _ h => (by cases h), ?_, fun _ _ _ h => (by cases h)⟩
      intro d i pl hev
      cases hev
      refine ⟨⟨pfx ++ (doneAndCompleted client r s).2, r.Payload,
        (doneAndCompleted client r s1).2, by simp,
        doneAndCompleted_noNext client r s1, ?_⟩, ?_⟩
      · rw [replay_append, replay_doneAndCompleted, hcl, hN]
      · obtain ⟨d0, m0, pl0, r0, rest, hp, hc⟩ := hfirst
        exact ⟨d0, m0, pl0, r0, rest ++ (doneAndCompleted client r s).2 ++
          [Event.Next r.Payload] ++ (doneAndCompleted client r s1).2,
          by rw [hp]; simp, by rw [hc]⟩
    rcases loop_cases client rw db mech ssdesc cid fuel s c r err with
      ⟨_, heq⟩ | ⟨_, _, heq⟩ | ⟨_, _, s1, payload, e, hN, heq⟩ |
      ⟨_, _, s1, payload, hN, _, heq⟩ | ⟨_, _, s1, payload, hN, _, _, heq⟩ |
      ⟨_, _, s1, payload, hN, _, f, c1, rdr, e, hf, hR, heq⟩ |
      ⟨_, _, s1, payload, hN, _, f, c1, rdr, r1, e, hf, hR, hU, heq⟩ |
      ⟨_, _, s1, payload, hN, _, f, c1, rdr, r1, hf, hR, hU, heq⟩
    · rw [heq]; exact After_nil _ _
    · rw [heq]; exact hE _ _
    · rw [heq]
      simp only [List.append_assoc, List.singleton_append, List.cons_append, List.nil_append]
      rw [After_append, After_cons]
      exact ⟨hE _ _, hNext, After_nil _ _⟩
    · rw [heq]
      simp only [List.append_assoc, List.singleton_append, List.cons_append, List.nil_append]
      rw [After_append, After_cons]
      exact ⟨hE _ _, hNext, hE _ _⟩
    · rw [heq]
      simp only [List.append_assoc, List.singleton_append, List.cons_append, List.nil_append]
      rw [After_append, After_cons]
      exact ⟨hE _ _, hNext, hE _ _⟩
    · rw [heq]
      simp only [List.append_assoc, List.singleton_append, List.cons_append, List.nil_append]
      rw [After_append, After_cons, After_append, After_cons]
      exact ⟨hE _ _, hNext, hE _ _, hRT s1 payload none hN, After_nil _ _⟩
    · rw [heq]
      simp only [List.append_assoc, List.singleton_append, List.cons_append, List.nil_append]
      rw [After_append, After_cons, After_append, After_cons]
      exact ⟨hE _ _, hNext, hE _ _, hRT s1 payload none hN, After_nil _ _⟩
    · rw [heq]
      simp only [Outcome.after, List.append_assoc, List.singleton_append, List.cons_append,
        List.nil_append]
      rw [After_append, After_cons, After_append, After_cons, After_cons]
      refine ⟨hE _ _, hNext, hE _ _, hRT s1 payload none hN,
        Carries_reply client rw ssdesc v0 _ _, ?_⟩
      apply ih f (by omega) s1 c1 r1 none
      · simp only [replay_append, replay_doneAndCompleted]
        simp only [replay, List.foldl_cons, List.foldl_nil, replayStep]
        have hcl2 : (List.foldl (replayStep client rw ssdesc) v0 pfx).client = s := hcl
        rw [hcl2, hN]
      · exact ⟨pfx ++ (doneAndCompleted client r s).2 ++ [Event.Next r.Payload] ++
          (doneAndCompleted client r s1).2 ++
          [Event.RoundTrip (Command.saslContinue db (toInt32 cid) payload)], [],
          by simp, by simp⟩
      · obtain ⟨d0, m0, pl0, r0, rest, hp, hc⟩ := hfirst
        exact ⟨d0, m0, pl0, r0, rest ++ (doneAndCompleted client r s).2 ++
          [Event.Next r.Payload] ++ (doneAndCompleted client r s1).2 ++
          [Event.RoundTrip (Command.saslContinue db (toInt32 cid) payload)] ++
          [Event.Reply r1], by rw [hp]; simp, hc⟩

/-- Before the deferred call: what the calls and the commands of the conversation carry. -/
theorem conversation_carries (client : SaslClient σ) (rw : ReadWriter χ) (db : String)
    (desc : Server) (fuel : Nat) (s : σ) (c : χ) :
    After (Carries client rw { Server := desc, Kind := 0 } (Vars.initial s c)) []
      (conversation client rw db desc fuel s c).trace := by
  have hStart : ∀ pre, Carries client rw { Server := desc, Kind := 0 } (Vars.initial s c)
      pre Event.Start := fun pre =>
    ⟨fun _ h => (by cases h), fun _ _ _ h => (by cases h), fun _ _ _ h => (by cases h)⟩
  have hCmd : ∀ (s1 : σ) (mech : String) (payload : Bytes) (oe : Option Err),
      client.Start s = (s1, mech, payload, oe) →
      Carries client rw { Server := desc, Kind := 0 } (Vars.initial s c) ([] ++ [Event.Start])
        (Event.RoundTrip (Command.saslStart db mech payload)) := by
    intro s1 mech payload oe hS
    refine ⟨fun _ h => (by cases h), fun _ _ _ h => (by cases h), ?_⟩
    intro d m pl hev
    cases hev
    simp [Vars.initial, hS]
  rcases conversation_cases client rw db desc fuel s c with
    ⟨s1, mech, payload, e, hS, heq⟩ | ⟨s1, mech, payload, hS, c1, rdr, e, hR, heq⟩ |
    ⟨s1, mech, payload, hS, c1, rdr, r0, e, hR, hU, heq⟩ |
    ⟨s1, mech, payload, hS, c1, rdr, r0, hR, hU, heq⟩
  · rw [heq]
    simp only []
    rw [After_cons]
    exact ⟨hStart _, After_nil _ _⟩
  · rw [heq]
    simp only []
    rw [After_cons, After_cons]
    exact ⟨hStart _, hCmd s1 mech payload none hS, After_nil _ _⟩
  · rw [heq]
    simp only []
    rw [After_cons, After_cons]
    exact ⟨hStart _, hCmd s1 mech payload none hS, After_nil _ _⟩
  · rw [heq]
    simp only [Outcome.after, List.cons_append, List.nil_append]
    rw [After_cons, After_cons, After_cons]
    refine ⟨hStart _, hCmd s1 mech payload none hS, Carries_reply _ _ _ _ _ _, ?_⟩
    apply loop_carries client rw db mech _ _ (Vars.initial s c) fuel s1 c1 r0 none
    · simp [replay, replayStep, Vars.initial, hS]
    · exact ⟨[Event.Start, Event.RoundTrip (Command.saslStart db mech payload)], [],
        by simp, by simp⟩
    · exact ⟨db, mech, payload, r0, [], by simp, rfl⟩

/-- C20: in every run, for every event `ev` of the trace and the events `pre` before it:
if `ev` is a call of `Next`, its argument is the payload of the most recent decoded
reply; if `ev` is a `saslContinue` command, its payload is the one returned by the most
recent call of `Next` (made in the client state reached by the events before that call),
and its conversation id is `int32` of the `ConversationID` of the first reply, the reply
to the `saslStart` command, whatever later replies contain; if `ev` is the `saslStart`
command, it comes right after `Start` and carries the mechanism name and the payload
that `Start` returned. -/
theorem ConductSaslConversation_carries (defaultAuthDB : String) (fuel : Nat)
    (desc : Server) (rw : ReadWriter χ) (db : String) (client : SaslClient σ) (s : σ) (c : χ)
    (pre post : List Event) (ev : Event)
    (htr : (ConductSaslConversation defaultAuthDB fuel desc rw db client s c).trace =
      pre ++ ev :: post) :
    (∀ p, ev = Event.Next p →
      ∃ pre0 resp mid, pre = pre0 ++ Event.Reply resp :: mid ∧
        (∀ e ∈ mid, e.isReply = false) ∧ p = resp.Payload) ∧
    (∀ d i pl, ev = Event.RoundTrip (Command.saslContinue d i pl) →
      (∃ pre0 p mid, pre = pre0 ++ Event.Next p :: mid ∧ (∀ e ∈ mid, e.isNext = false) ∧
        pl = (client.Next
          (replay client rw { Server := desc, Kind := 0 } (Vars.initial s c) pre0).client
          p).2.1) ∧
      (∃ d0 m0 pl0 r0 rest,
        pre = Event.Start :: Event.RoundTrip (Command.saslStart d0 m0 pl0) ::
          Event.Reply r0 :: rest ∧
        i = toInt32 r0.ConversationID)) ∧
    (∀ d m pl, ev = Event.RoundTrip (Command.saslStart d m pl) →
      pre = [Event.Start] ∧ m = (client.Start s).2.1 ∧ pl = (client.Start s).2.2.1) := by
  by_cases harb : desc.Kind = ServerKind.RSArbiter
  · simp [ConductSaslConversation, harb] at htr
  have hrun : ConductSaslConversation defaultAuthDB fuel desc rw db client s c =
      runDeferred client
        (conversation client rw (if db = "" then defaultAuthDB else db) desc fuel s c) := by
    simp only [ConductSaslConversation, harb, if_false]
  generalize (if db = "" then defaultAuthDB else db) = db1 at hrun
  rw [hrun, runDeferred_trace] at htr
  have hconv := conversation_carries client rw db1 desc fuel s c
  have htail : After (Carries client rw { Server := desc, Kind := 0 } (Vars.initial s c))
      ([] ++ (conversation client rw db1 desc fuel s c).trace)
      (if (conversation client rw db1 desc fuel s c).status ≠ Status.outOfFuel ∧
        client.Close.isSome then [Event.Close] else []) := by
    apply After_of_forall
    intro q e he
    split at he
    · simp only [List.mem_singleton] at he
      subst he
      exact ⟨fun _ h => (by cases h), fun _ _ _ h => (by cases h),
        fun _ _ _ h => (by cases h)⟩
    · simp at he
  have hall := (After_append _ _ _ _).mpr ⟨hconv, htail⟩
  have := hall pre ev post htr
  simpa [Carries, Vars.initial] using this

/-- C20, evaluated: the replies of the scripted server carry the conversation ids 7, 8
and 9; the second `saslContinue` command, sent after the reply with id 8, carries the id
7 of the first reply and the payload `[1, 1]` returned by the call of `Next` before it. -/
theorem ConductSaslConversation_carries_witness :
    (ConductSaslConversation "admin" 5 (sample.desc ServerKind.RSPrimary)
        (sample.serverIds 2) "" (sample.client 2 false) 0 0).trace =
      [Event.Start, Event.RoundTrip (Command.saslStart "admin" "PLAIN" [1]),
        Event.Reply { ConversationID := 7, Code := 0, Done := false, Payload := [0] },
        Event.Next [0], Event.RoundTrip (Command.saslContinue "admin" 7 [0, 0]),
        Event.Reply { ConversationID := 8, Code := 0, Done := false, Payload := [1] },
        Event.Next [1]] ++
      Event.RoundTrip (Command.saslContinue "admin" 7 [1, 1]) ::
        [Event.Reply { ConversationID := 9, Code := 0, Done := true, Payload := [2] },
          Event.Completed true] ∧
    ∃ d0 m0 pl0 r0 rest,
      [Event.Start, Event.RoundTrip (Command.saslStart "admin" "PLAIN" [1]),
        Event.Reply { ConversationID := 7, Code := 0, Done := false, Payload := [0] },
        Event.Next [0], Event.RoundTrip (Command.saslContinue "admin" 7 [0, 0]),
        Event.Reply { ConversationID := 8, Code := 0, Done := false, Payload := [1] },
        Event.Next [1]] =
        Event.Start :: Event.RoundTrip (Command.saslStart d0 m0 pl0) ::
          Event.Reply r0 :: rest ∧
      (7 : Int) = toInt32 r0.ConversationID :=
  have htr : (ConductSaslConversation "admin" 5 (sample.desc ServerKind.RSPrimary)
        (sample.serverIds 2) "" (sample.client 2 false) 0 0).trace =
      [Event.Start, Event.RoundTrip (Command.saslStart "admin" "PLAIN" [1]),
        Event.Reply { ConversationID := 7, Code := 0, Done := false, Payload := [0] },
        Event.Next [0], Event.RoundTrip (Command.saslContinue "admin" 7 [0, 0]),
        Event.Reply { ConversationID := 8, Code := 0, Done := false, Payload := [1] },
        Event.Next [1]] ++
      Event.RoundTrip (Command.saslContinue "admin" 7 [1, 1]) ::
        [Event.Reply { ConversationID := 9, Code := 0, Done := true, Payload := [2] },
          Event.Completed true] := by decide
  ⟨htr, ((ConductSaslConversation_carries "admin" 5 (sample.desc ServerKind.RSPrimary)
    (sample.serverIds 2) "" (sample.client 2 false) 0 0 _ _ _ htr).2.1
    "admin" 7 [1, 1] rfl).2⟩

/-! ### The replayed states are the states of the run -/

/-- Replaying the trace of the loop from the states it was entered with gives the states
it ends with. -/
theorem loop_replay (client : SaslClient σ) (rw : ReadWriter χ) (db mech : String)
    (ssdesc : SelectedServer) (cid : Int) (fuel : Nat) :
    ∀ (s : σ) (c : χ) (r : saslResponse) (err : Option Err) (v : Vars σ χ),
      v.client = s → v.conn = c →
      (replay client rw ssdesc v
          (loop client rw db mech ssdesc cid fuel s c r err).trace).client =
        (loop client rw db mech ssdesc cid fuel s c r err).client ∧
      (replay client rw ssdesc v
          (loop client rw db mech ssdesc cid fuel s c r err).trace).conn =
        (loop client rw db mech ssdesc cid fuel s c r err).conn := by
  induction fuel using Nat.strong_induction_on with
  | _ fuel ih =>
    intro s c r err v hvs hvc
    rcases loop_cases client rw db mech ssdesc cid fuel s c r err with
      ⟨_, heq⟩ | ⟨_, _, heq⟩ | ⟨_, _, s1, payload, e, hN, heq⟩ |
      ⟨_, _, s1, payload, hN, _, heq⟩ | ⟨_, _, s1, payload, hN, _, _, heq⟩ |
      ⟨_, _, s1, payload, hN, _, f, c1, rdr, e, hf, hR, heq⟩ |
      ⟨_, _, s1, payload, hN, _, f, c1, rdr, r1, e, hf, hR, hU, heq⟩ |
      ⟨_, _, s1, payload, hN, _, f, c1, rdr, r1, hf, hR, hU, heq⟩
    · rw [heq]
      exact ⟨hvs, hvc⟩
    · rw [heq]
      simp only [replay_doneAndCompleted]
      exact ⟨hvs, hvc⟩
    · rw [heq]
      simp only [replay_append, replay_doneAndCompleted]
      simp [replay, replayStep, hvs, hvc, hN]
    · rw [heq]
      simp only [replay_append, replay_doneAndCompleted]
      simp [replay, replayStep, hvs, hvc, hN]
    · rw [heq]
      simp only [replay_append, replay_doneAndCompleted]
      simp [replay, replayStep, hvs, hvc, hN]
    · rw [heq]
      simp only [replay_append, replay_doneAndCompleted]
      simp [replay, replayStep, hvs, hvc, hN, hR]
    · rw [heq]
      simp only [replay_append, replay_doneAndCompleted]
      simp [replay, replayStep, hvs, hvc, hN, hR]
    · rw [heq]
      simp only [Outcome.after, replay_append, replay_doneAndCompleted]
      exact ih f (by omega) s1 c1 r1 none _
        (by simp [replay, replayStep, hvs, hN]) (by simp [replay, replayStep, hvc, hR])

/-- The states in which a run ends are the states obtained by replaying its trace from
the states it started with: the replay used to say in which state a call was made
follows the run. -/
theorem ConductSaslConversation_replay (defaultAuthDB : String) (fuel : Nat)
    (desc : Server) (rw : ReadWriter χ) (db : String) (client : SaslClient σ) (s : σ)
    (c : χ) :
    (replay client rw { Server := desc, Kind := 0 } (Vars.initial s c)
        (ConductSaslConversation defaultAuthDB fuel desc rw db client s c).trace).client =
      (ConductSaslConversation defaultAuthDB fuel desc rw db client s c).client ∧
    (replay client rw { Server := desc, Kind := 0 } (Vars.initial s c)
        (ConductSaslConversation defaultAuthDB fuel desc rw db client s c).trace).conn =
      (ConductSaslConversation defaultAuthDB fuel desc rw db client s c).conn := by
  by_cases harb : desc.Kind = ServerKind.RSArbiter
  · simp [ConductSaslConversation, harb, replay, Vars.initial]
  have hrun : ConductSaslConversation defaultAuthDB fuel desc rw db client s c =
      runDeferred client
        (conversation client rw (if db = "" then defaultAuthDB else db) desc fuel s c) := by
    simp only [ConductSaslConversation, harb, if_false]
  generalize (if db = "" then defaultAuthDB else db) = db1 at hrun
  rw [hrun]
  have hconv : (replay client rw { Server := desc, Kind := 0 } (Vars.initial s c)
        (conversation client rw db1 desc fuel s c).trace).client =
        (conversation client rw db1 desc fuel s c).client ∧
      (replay client rw { Server := desc, Kind := 0 } (Vars.initial s c)
        (conversation client rw db1 desc fuel s c).trace).conn =
        (conversation client rw db1 desc fuel s c).conn := by
    rcases conversation_cases client rw db1 desc fuel s c with
      ⟨s1, mech, payload, e, hS, heq⟩ | ⟨s1, mech, payload, hS, c1, rdr, e, hR, heq⟩ |
      ⟨s1, mech, payload, hS, c1, rdr, r0, e, hR, hU, heq⟩ |
      ⟨s1, mech, payload, hS, c1, rdr, r0, hR, hU, heq⟩
    · rw [heq]
      simp [replay, replayStep, Vars.initial, hS]
    · rw [heq]
      simp [replay, replayStep, Vars.initial, hS, hR]
    · rw [heq]
      simp [replay, replayStep, Vars.initial, hS, hR]
    · rw [heq]
      have happ : ([Event.Start, Event.RoundTrip (Command.saslStart db1 mech payload),
          Event.Reply r0] ++ (loop client rw db1 mech { Server := desc, Kind := 0 }
            r0.ConversationID fuel s1 c1 r0 none).trace) =
          ((loop client rw db1 mech { Server := desc, Kind := 0 } r0.ConversationID fuel
            s1 c1 r0 none).after [Event.Start,
              Event.RoundTrip (Command.saslStart db1 mech payload), Event.Reply r0]).trace :=
        rfl
      rw [← happ, replay_append]
      exact loop_replay client rw db1 mech _ _ fuel s1 c1 r0 none _
        (by simp [replay, replayStep, Vars.initial, hS])
        (by simp [replay, replayStep, Vars.initial, hR])
  unfold runDeferred
  split
  · rename_i e close hst hcl
    simp only [replay_append]
    simp [replay, replayStep, hcl]
    simp only [replay] at hconv
    exact ⟨by rw [hconv.1], hconv.2⟩
  · exact hconv

end AuthTheorems
